import Mathlib

/-!
Shallow embedding of the Blender add-on manager's loader and manager layer
(`src/core/loader/proc_finder.py`, `src/core/loader/proc_loader.py`,
`src/core/loader/cache_loader.py`, `src/core/proc_loader.py`,
`src/core/addon_manager.py`, `src/core/properties_manager.py`,
`src/core/keymap_manager.py`, `src/core/utils/gen_msg.py`).

Python strings are modelled by `String` with the relevant `str` / `os.path`
operations implemented below; Python's insertion-ordered `dict` is modelled by
an association list with position-preserving upsert; Python's stable `sorted`
is modelled by a stable insertion sort (any two stable sorts agree for a total
preorder key); module objects are keyed by their `sys.modules` import path, and
their mutable attributes (`ADDON_MODULE_PRIORITY`, `ADDON_INIT_LOADED`) live in
an explicit state threaded through the computation.
-/

/-- Python `str.lstrip(cut)` on the underlying character list: remove leading
characters that are members of the cut set (note: a character set, not a
string-prefix removal — this matches CPython, including its surprises). -/
def pyLstripAux (cut : List Char) : List Char → List Char
  | [] => []
  | c :: cs => if c ∈ cut then pyLstripAux cut cs else c :: cs

/-- Python `s.lstrip(cut)`. -/
def pyLstrip (cut : String) (s : String) : String :=
  String.mk (pyLstripAux cut.data s.data)

/-- Python `s.replace(a, b)` for single characters (used for
`path.replace(os.sep, ".")` with `os.sep = '/'`). -/
def pyReplaceChar (a b : Char) (s : String) : String :=
  String.mk (s.data.map (fun c => if c = a then b else c))

/-- Last `/`-separated component of a character list. -/
def pyBasenameAux : List Char → List Char → List Char
  | acc, [] => acc
  | acc, c :: cs => if c = '/' then pyBasenameAux [] cs else pyBasenameAux (acc ++ [c]) cs

/-- Python `os.path.basename` (POSIX): the part after the last `/`. -/
def pyBasename (s : String) : String :=
  String.mk (pyBasenameAux [] s.data)

/-- Characters strictly before the last `.` of the list, or `none` if there is
no `.`. -/
def lastDotSplit : List Char → Option (List Char)
  | [] => none
  | c :: cs =>
    match lastDotSplit cs with
    | some pre => some (c :: pre)
    | none => if c = '.' then some [] else none

/-- Python `os.path.splitext(s)[0]`: drop the extension that starts at the last
dot, unless every character before that dot is itself a dot (CPython keeps
names such as `".hidden"` whole). -/
def pySplitextStem (s : String) : String :=
  match lastDotSplit s.data with
  | none => s
  | some pre => if pre.all (fun c => c = '.') then s else String.mk pre

/-- Containment test of one character list at the front of another. -/
def listLeads : List Char → List Char → Bool
  | [], _ => true
  | _ :: _, [] => false
  | a :: as, b :: bs => a = b && listLeads as bs

/-- Python `s.startswith(pre)`. -/
def pyStartsWith (s pre : String) : Bool :=
  listLeads pre.data s.data

/-- Python `s.endswith(suf)`. -/
def pyEndsWith (s suf : String) : Bool :=
  listLeads suf.data.reverse s.data.reverse

/-- Python insertion-ordered `dict.__setitem__` on an association list: an
existing key keeps its position and gets the new value, a fresh key is
appended. -/
def dictInsert (k : String) (v : Int) : List (String × Int) → List (String × Int)
  | [] => [(k, v)]
  | (k', v') :: rest => if k' = k then (k, v) :: rest else (k', v') :: dictInsert k v rest

/-- Association-list lookup (first binding wins, as in a Python dict). -/
def dictFind (k : String) : List (String × Int) → Option Int
  | [] => none
  | (k', v') :: rest => if k' = k then some v' else dictFind k rest

/-- Insert `x` into `l` before the first element `y` with `lt y x = false`.
Applied to an accumulator sorted by the strict key order `lt` this yields the
stable insertion used to model Python's stable `sorted`. -/
def insertStable (lt : α → α → Bool) (x : α) : List α → List α
  | [] => [x]
  | y :: ys => if lt y x then y :: insertStable lt x ys else x :: y :: ys

/-- Stable insertion sort; for a total preorder key this coincides with
Python's (stable) `sorted`. -/
def stableSort (lt : α → α → Bool) : List α → List α
  | [] => []
  | x :: xs => insertStable lt x (stableSort lt xs)

/-- Strict order on sort keys, where `none` models `float("inf")`. -/
def pkLt : Option Int → Option Int → Bool
  | some a, some b => decide (a < b)
  | some _, none => true
  | none, _ => false

theorem pkLt_irrefl : ∀ a : Option Int, pkLt a a = false := by
  intro a
  cases a <;> simp [pkLt]

theorem pkLt_asymm : ∀ a b : Option Int, pkLt a b = true → pkLt b a = false := by
  intro a b h
  cases a <;> cases b <;> simp [pkLt] at * <;> omega

theorem pkLt_le_trans : ∀ a b c : Option Int,
    pkLt b a = false → pkLt c b = false → pkLt c a = false := by
  intro a b c h1 h2
  cases a <;> cases b <;> cases c <;> simp [pkLt] at * <;> omega

theorem insertStable_perm (lt : α → α → Bool) (x : α) (l : List α) :
    (insertStable lt x l).Perm (x :: l) := by
  induction l with
  | nil => simp [insertStable]
  | cons y ys ih =>
    by_cases h : lt y x
    · simp only [insertStable, h, if_true]
      exact ((ih.cons y).trans (List.Perm.swap x y ys))
    · simp [insertStable, h]

theorem stableSort_perm (lt : α → α → Bool) (l : List α) :
    (stableSort lt l).Perm l := by
  induction l with
  | nil => simp [stableSort]
  | cons x xs ih =>
    exact (insertStable_perm lt x (stableSort lt xs)).trans (ih.cons x)

theorem insertStable_pairwise (lt : α → α → Bool)
    (hasym : ∀ a b, lt a b = true → lt b a = false)
    (htrans : ∀ a b c, lt b a = false → lt c b = false → lt c a = false)
    (x : α) (l : List α) (hl : l.Pairwise (fun a b => lt b a = false)) :
    (insertStable lt x l).Pairwise (fun a b => lt b a = false) := by
  induction l with
  | nil => simp [insertStable]
  | cons y ys ih =>
    rcases List.pairwise_cons.mp hl with ⟨hy, hys⟩
    by_cases h : lt y x
    · simp only [insertStable, h, if_true]
      refine List.pairwise_cons.mpr ⟨?_, ih hys⟩
      intro z hz
      rcases List.mem_cons.mp ((insertStable_perm lt x ys).mem_iff.mp hz) with hzx | hzys
      · rw [hzx]; exact hasym y x h
      · exact hy z hzys
    · simp only [insertStable, h, if_false]
      refine List.pairwise_cons.mpr ⟨?_, hl⟩
      intro z hz
      rcases List.mem_cons.mp hz with hzy | hzys
      · subst hzy
        simpa using h
      · exact htrans x y z (by simpa using h) (hy z hzys)

theorem stableSort_pairwise (lt : α → α → Bool)
    (hasym : ∀ a b, lt a b = true → lt b a = false)
    (htrans : ∀ a b c, lt b a = false → lt c b = false → lt c a = false)
    (l : List α) :
    (stableSort lt l).Pairwise (fun a b => lt b a = false) := by
  induction l with
  | nil => simp [stableSort]
  | cons x xs ih => exact insertStable_pairwise lt hasym htrans x _ ih

theorem insertStable_filter (lt : α → α → Bool) (key : α → Option Int)
    (hlt : ∀ a b, lt a b = pkLt (key a) (key b))
    (x : α) (l : List α) (v : Option Int) :
    (insertStable lt x l).filter (fun y => decide (key y = v)) =
      if key x = v then x :: l.filter (fun y => decide (key y = v))
      else l.filter (fun y => decide (key y = v)) := by
  induction l with
  | nil =>
    by_cases hv : key x = v <;> simp [insertStable, hv]
  | cons y ys ih =>
    by_cases h : lt y x
    · simp only [insertStable, h, if_true]
      by_cases hv : key x = v
      · have hyv : ¬ key y = v := by
          intro hyv
          rw [hlt, hyv, ← hv] at h
          rw [pkLt_irrefl] at h
          exact Bool.false_ne_true h
        rw [List.filter_cons, List.filter_cons]
        simp only [hyv, hv, decide_eq_true_eq, if_true, if_false, decide_False,
          Bool.false_eq_true, ih]
      · rw [List.filter_cons, List.filter_cons, ih]
        simp [hv]
    · simp only [insertStable, h, if_false]
      by_cases hv : key x = v <;> simp [List.filter_cons, hv]

theorem stableSort_filter (lt : α → α → Bool) (key : α → Option Int)
    (hlt : ∀ a b, lt a b = pkLt (key a) (key b))
    (l : List α) (v : Option Int) :
    (stableSort lt l).filter (fun y => decide (key y = v)) =
      l.filter (fun y => decide (key y = v)) := by
  induction l with
  | nil => simp [stableSort]
  | cons x xs ih =>
    rw [stableSort, insertStable_filter lt key hlt, List.filter_cons]
    by_cases hv : key x = v <;> simp [hv, ih]

theorem stableSort_map (lt : α → α → Bool) (lt' : β → β → Bool) (g : α → β)
    (hg : ∀ a b, lt' (g a) (g b) = lt a b) (l : List α) :
    stableSort lt' (l.map g) = (stableSort lt l).map g := by
  have hins : ∀ (x : α) (m : List α),
      insertStable lt' (g x) (m.map g) = (insertStable lt x m).map g := by
    intro x m
    induction m with
    | nil => simp [insertStable]
    | cons y ys ihy =>
      by_cases h : lt y x
      · simp [insertStable, hg, h, ihy]
      · simp [insertStable, hg, h]
  induction l with
  | nil => simp [stableSort]
  | cons x xs ih =>
    simp only [List.map_cons, stableSort, ih]
    exact hins x (stableSort lt xs)

/-! ## Data model for the loader
Module objects are keyed by their import path. `ModInfo` collects the
attributes the loader reads from a module object: `__file__`, `__package__`,
`__path__` (as `isPkg`), the `priority` / `disable` iterables of an `__init__`
module, `getmembers(·, ismodule)` (as the member modules' import paths, in
member-name order), `getmembers(·, isclass)` (in member-name order), and any
pre-existing `ADDON_MODULE_PRIORITY` / `ADDON_INIT_LOADED` attributes. -/

/-- Class object as seen by `ProcFinder.__load_classes`: `isTarget` stands for
`issubclass(cls, tuple(TARGET_CLASSES)) and cls not in TARGET_CLASSES`, and
`priorityAttr` is the `addon_proc_priority` attribute set by the `priority`
decorator (the old loader stores the same value as `_addon_proc_priority`). -/
structure PyClass where
  name : String
  isTarget : Bool
  priorityAttr : Option Int
  deriving Repr, DecidableEq

/-- Attributes of one module object. -/
structure ModInfo where
  file : String := ""
  package : Option String := none
  isPkg : Bool := false
  priorityAttr : Option (List String) := none
  disableAttr : Option (List String) := none
  members : List String := []
  classes : List PyClass := []
  initPriority : Option Int := none
  initLoaded : Bool := false
  deriving Repr

/-- Environment of a `ProcFinder` run: the loader constants (`PATH`,
`ADDON_NAME`, `IS_DEBUG_MODE`), the directory tree as the output of
`os.walk(join(PATH, ADDON_NAME))`, and the module universe.
`managerRootName` is the base name of the folder the manager repository is
vendored into; the old `src/core/proc_loader.py` computes its self-exclusion
entry as `basename(dirname(dirname(__file__)))`, which for that file is
exactly this folder name. -/
structure LoaderEnv where
  path : String
  addonName : String
  isDebugMode : Bool
  managerRootName : String
  walk : List (String × List String)
  importable : String → Bool
  modules : String → ModInfo

/-- Mutable module attributes set by `__set_module_priority`:
`ADDON_INIT_LOADED` flags and `ADDON_MODULE_PRIORITY` values, keyed by module
path. -/
structure PrState where
  loaded : List String
  prio : List (String × Int)
  deriving Repr, DecidableEq

/-- Call of `__set_module_priority`'s mutually recursive parts:
`init p` is `_set_module_priority` applied to the module object `p`;
`entries pkgPath l` is its `for mdl_path in init.priority` loop;
`members l` is `set_priority` iterating over member modules `l`. -/
inductive SmpJob where
  | init (p : String)
  | entries (pkgPath : String) (l : List String)
  | members (l : List String)
  deriving Repr

/-- Import path used at `proc_finder.py:163`:
`mdl.__file__.lstrip(PATH).replace(os.sep, ".") + "." + "__init__"`. -/
def initPathOfFile (env : LoaderEnv) (file : String) : String :=
  pyReplaceChar '/' '.' (pyLstrip env.path file) ++ ".__init__"

/-- Guard `getattr(init, "ADDON_INIT_LOADED", False)`: the flag may pre-exist
on the module object or have been set during this load. -/
def initLoadedCheck (env : LoaderEnv) (st : PrState) (p : String) : Bool :=
  st.loaded.contains p || (env.modules p).initLoaded

/-- Fueled interpreter of `ProcFinder.__set_module_priority`
(`src/core/loader/proc_finder.py:152-204`; the old
`src/core/proc_loader.py:247-293` is the same code). Returns the final
attribute state, the final `priority_count`, and the chronological trace of
`ADDON_MODULE_PRIORITY` assignments; `none` models an uncaught
`ModuleNotFoundError` (from `import_module(priority_path)`) or fuel
exhaustion. -/
def smpGo (env : LoaderEnv) :
    Nat → SmpJob → PrState → Nat → Option (PrState × Nat × List (String × Nat))
  | 0, _, _, _ => none
  | Nat.succ f, SmpJob.init p, st, c =>
    if initLoadedCheck env st p then some (st, c, [])
    else
      let st1 : PrState := { st with loaded := p :: st.loaded }
      match (env.modules p).priorityAttr with
      | none => some (st1, c, [])
      | some l =>
        match (env.modules p).package with
        | none => some (st1, c, [])
        | some pkg => smpGo env f (SmpJob.entries (pkg ++ ".") l) st1 c
  | Nat.succ f, SmpJob.entries pkgPath l, st, c =>
    match l with
    | [] => some (st, c, [])
    | e :: rest =>
      let p := pkgPath ++ e
      if env.importable p then
        let step : Option (PrState × Nat × List (String × Nat)) :=
          if (env.modules p).isPkg then
            if env.importable (p ++ ".__init__") then
              smpGo env f (SmpJob.init (p ++ ".__init__")) st c
            else
              smpGo env f (SmpJob.members (env.modules p).members) st c
          else
            some ({ st with prio := dictInsert p (Int.ofNat c) st.prio }, c, [(p, c)])
        match step with
        | none => none
        | some (st2, c2, tr1) =>
          match smpGo env f (SmpJob.entries pkgPath rest) st2 (c2 + 1) with
          | none => none
          | some (st3, c3, tr2) => some (st3, c3, tr1 ++ tr2)
      else none
  | Nat.succ f, SmpJob.members l, st, c =>
    match l with
    | [] => some (st, c, [])
    | m :: rest =>
      let inner : Option (PrState × Nat × List (String × Nat)) :=
        if (env.modules m).isPkg then
          if env.importable (initPathOfFile env (env.modules m).file) then
            smpGo env f (SmpJob.init (initPathOfFile env (env.modules m).file)) st c
          else
            smpGo env f (SmpJob.members (env.modules m).members) st c
        else some (st, c, [])
      match inner with
      | none => none
      | some (st2, c2, tr1) =>
        match smpGo env f (SmpJob.members rest)
            { st2 with prio := dictInsert m (Int.ofNat c2) st2.prio } (c2 + 1) with
        | none => none
        | some (st3, c3, tr2) => some (st3, c3, tr1 ++ (m, c2) :: tr2)

/-! ## ProcFinder.load pipeline -/

/-- Inner loop of the directory-priority scan: `priority = -1`, then
`for i, path in enumerate(dir_priorities): if root_mdl_path.startswith(path):
priority = i` — a later match overwrites an earlier one. -/
def dirPriorityIndexAux (r : String) : List String → Int → Int → Int
  | [], _, cur => cur
  | p :: rest, i, cur =>
    dirPriorityIndexAux r rest (i + 1) (if pyStartsWith r p then i else cur)

/-- Directory priority of one walk root in the old loader
(`src/core/proc_loader.py:183-187`). -/
def dirPriorityIndex (dp : List String) (r : String) : Int :=
  dirPriorityIndexAux r dp 0 (-1)

/-- Directory priority in the new loader (`proc_finder.py:70-75`), which also
accepts `None`. -/
def dirPriorityIndexOpt (dp : Option (List String)) (r : String) : Int :=
  match dp with
  | none => -1
  | some l => dirPriorityIndexAux r l 0 (-1)

/-- Module path of a walk root:
`root.lstrip(PATH + os.sep).replace(os.sep, ".")`. -/
def rootModulePath (env : LoaderEnv) (root : String) : String :=
  pyReplaceChar '/' '.' (pyLstrip (env.path ++ "/") root)

/-- Per-root file loop: every `*.py` file is entered into the path dictionary
with the root's directory priority (`modules_path_with_pr[mdl_path] = pr`). -/
def collectWalkFiles (rootMdl : String) (pr : Int) (files : List String)
    (d : List (String × Int)) : List (String × Int) :=
  files.foldl
    (fun d f =>
      if pyEndsWith f ".py" then dictInsert (rootMdl ++ "." ++ pySplitextStem f) pr d else d)
    d

/-- Walk scan of the new loader (`proc_finder.py:62-82`): roots whose base name
starts with `.` are skipped. -/
def newCollectWalk (env : LoaderEnv) (dp : Option (List String)) : List (String × Int) :=
  env.walk.foldl
    (fun d rf =>
      if pyStartsWith (pyBasename rf.1) "." then d
      else
        collectWalkFiles (rootModulePath env rf.1)
          (dirPriorityIndexOpt dp (rootModulePath env rf.1)) rf.2 d)
    []

/-- Walk scan of the old loader (`src/core/proc_loader.py:176-194`); identical
except that `dir_priorities` is a plain list. -/
def oldCollectWalk (env : LoaderEnv) (dp : List String) : List (String × Int) :=
  env.walk.foldl
    (fun d rf =>
      if pyStartsWith (pyBasename rf.1) "." then d
      else
        collectWalkFiles (rootModulePath env rf.1)
          (dirPriorityIndex dp (rootModulePath env rf.1)) rf.2 d)
    []

/-- Sort key of the directory-priority sort:
`float("inf") if pr < 0 else pr`. -/
def walkSortKey (v : Int) : Option Int :=
  if v < 0 then none else some v

/-- `modules_path`: dictionary items sorted (stably) by directory priority,
keys only. Identical in both loader versions. -/
def sortedModulePaths (d : List (String × Int)) : List String :=
  (stableSort (fun a b => pkLt (walkSortKey a.2) (walkSortKey b.2)) d).map Prod.fst

/-- Debug filter: when not in debug mode, drop modules whose `__package__` ends
with `"debug"`. A module whose `__package__` is `None` would raise
`AttributeError` in the source; every module found under the walk root has its
package set, so the model reads the package as a string defaulting to `""`. -/
def debugFiltered (env : LoaderEnv) (modules : List String) : List String :=
  if env.isDebugMode then modules
  else modules.filter (fun p => !pyEndsWith ((env.modules p).package.getD "") "debug")

/-- One step of `__load_init_attr` per `__init__` module, in list order: skip
modules whose `__package__` is `None`, collect
`package_path + mdl + "."` for each entry of the `disable` iterable, then run
`__set_module_priority` (with a fresh `priority_count` of `0`). Identical in
both loader versions. -/
def loadInitAttrGo (env : LoaderEnv) (fuel : Nat) :
    List String → PrState → List String → Option (List String × PrState)
  | [], st, acc => some (acc, st)
  | p :: rest, st, acc =>
    match (env.modules p).package with
    | none => loadInitAttrGo env fuel rest st acc
    | some pkg =>
      let acc2 := acc ++
        (match (env.modules p).disableAttr with
         | none => []
         | some ds => ds.map (fun m => pkg ++ "." ++ m ++ "."))
      match smpGo env fuel (SmpJob.init p) st 0 with
      | none => none
      | some (st2, _, _) => loadInitAttrGo env fuel rest st2 acc2

/-- `__load_init_attr`: the `__init__` modules (those whose `__file__` ends
with `__init__.py`) are removed from the module list and processed in order;
the walk dictionary keys are distinct, so removing each one equals filtering
them out. Returns the collected disabled-module prefixes, the remaining
modules, and the attribute state. -/
def loadInitAttr (env : LoaderEnv) (fuel : Nat) (modules : List String) (st : PrState) :
    Option (List String × List String × PrState) :=
  let inits := modules.filter (fun p => pyEndsWith (env.modules p).file "__init__.py")
  let remaining := modules.filter (fun p => !pyEndsWith (env.modules p).file "__init__.py")
  match loadInitAttrGo env fuel inits st [] with
  | none => none
  | some (disabled, st2) => some (disabled, remaining, st2)

/-- `__abs_to_mdl_path`: `path.lstrip(PATH).replace(os.sep, ".")` (note: no
separator appended to `PATH` here, unlike the walk scan). -/
def absToMdlPath (env : LoaderEnv) (p : String) : String :=
  pyReplaceChar '/' '.' (pyLstrip env.path p)

/-- Exclusion filter: keep a module when its `__file__` is truthy and
`__abs_to_mdl_path(file + ".")` starts with none of the exclusion prefixes
(`str.startswith` applied to a tuple). Identical in both loader versions. -/
def excludeFiltered (env : LoaderEnv) (excl : List String) (modules : List String) :
    List String :=
  modules.filter (fun p =>
    decide ((env.modules p).file ≠ "") &&
    !excl.any (fun e => pyStartsWith (absToMdlPath env ((env.modules p).file ++ ".")) e))

/-- Class sort key:
`float("inf") if getattr(cls, "addon_proc_priority", -1) == -1 else
cls.addon_proc_priority` — an absent attribute and the value `-1` both map to
infinity. -/
def classSortKey (c : PyClass) : Option Int :=
  match c.priorityAttr with
  | none => none
  | some v => if v = -1 then none else some v

/-- Stable per-module class sort of `__load_classes`. -/
def sortClasses (cs : List PyClass) : List PyClass :=
  stableSort (fun a b => pkLt (classSortKey a) (classSortKey b)) cs

/-- Class filter of `__load_classes`. The source's additional condition
`not getattr(cls, "addon_proc_disabled", False)` is evaluated on the
`(name, class)` tuple returned by `getmembers`, which never has that
attribute, so it is constantly true and filters nothing (the old loader has
the same condition with `_addon_proc_disabled`, on the tuple as well). -/
def targetClasses (cs : List PyClass) : List PyClass :=
  cs.filter (fun c => c.isTarget)

/-- Module together with its sorted add-on classes
(`src/core/loader/addon_module.py`). -/
structure AddonModule where
  module : String
  classes : List PyClass
  deriving Repr, DecidableEq

/-- `__load_classes` of the new loader. -/
def newLoadClasses (env : LoaderEnv) (modules : List String) : List AddonModule :=
  modules.map (fun p =>
    { module := p, classes := sortClasses (targetClasses (env.modules p).classes) })

/-- `__load_classes` of the old loader, returning `(module, classes)` tuples.
It additionally calls `add_attribute` on each kept class, which sets default
`bl_idname` / `bl_category` attributes in place and neither adds, drops nor
reorders classes. -/
def oldLoadClasses (env : LoaderEnv) (modules : List String) :
    List (String × List PyClass) :=
  modules.map (fun p => (p, sortClasses (targetClasses (env.modules p).classes)))

/-- Final value of `getattr(module, "ADDON_MODULE_PRIORITY", -1)`: an
assignment made during this load wins, else a pre-existing attribute, else the
default `-1`. -/
def modulePriorityValue (env : LoaderEnv) (st : PrState) (p : String) : Int :=
  match dictFind p st.prio with
  | some v => v
  | none => (env.modules p).initPriority.getD (-1)

/-- Module sort key of the final sort (`proc_finder.py:105-108`):
`-1` (or an absent attribute) maps to infinity. -/
def moduleSortKey (env : LoaderEnv) (st : PrState) (p : String) : Option Int :=
  if modulePriorityValue env st p = -1 then none else some (modulePriorityValue env st p)

/-- Final stable module sort of the new loader. -/
def newSortedAddonModules (env : LoaderEnv) (st : PrState) (ams : List AddonModule) :
    List AddonModule :=
  stableSort (fun a b => pkLt (moduleSortKey env st a.module) (moduleSortKey env st b.module)) ams

/-- Final stable module sort of the old loader
(`src/core/proc_loader.py:208`). -/
def oldSortedModules (env : LoaderEnv) (st : PrState) (l : List (String × List PyClass)) :
    List (String × List PyClass) :=
  stableSort (fun a b => pkLt (moduleSortKey env st a.1) (moduleSortKey env st b.1)) l

/-- Return value of the new `ProcFinder.load`
(`src/core/loader/addon_module.py:20-31`). -/
structure Plugins where
  modules : List String
  classes : List PyClass
  deriving Repr, DecidableEq

/-- `Plugins.from_addon_modules`: the module list plus the flattened class
lists. -/
def Plugins.fromAddonModules (ams : List AddonModule) : Plugins :=
  { modules := ams.map (fun a => a.module)
    classes := (ams.map (fun a => a.classes)).flatten }

/-- Exclusion prefixes of the new loader (`proc_finder.py:51-60`). Its
self-exclusion entry `basename(dirname(dirname(__file__)))` is always
`"core"`, because `proc_finder.py` sits in `core/loader/` of the vendored
manager. -/
def newExcludePrefixes (env : LoaderEnv) (em ewnd : Option (List String)) : List String :=
  let em1 := em.getD [] ++ ["core"]
  let em2 :=
    if !env.isDebugMode then
      match ewnd with
      | none => em1
      | some l => em1 ++ l
    else em1
  em2.map (fun d => env.addonName ++ "." ++ d)

/-- Exclusion prefixes of the old loader (`src/core/proc_loader.py:171-174`).
Its `__file__` sits directly in `core/`, so
`basename(dirname(dirname(__file__)))` is the name of the folder the manager
is vendored into (`managerRootName`). -/
def oldExcludePrefixes (env : LoaderEnv) (em ewnd : List String) : List String :=
  let em1 := em ++ [env.managerRootName]
  let em2 := if !env.isDebugMode then em1 ++ ewnd else em1
  em2.map (fun d => env.addonName ++ "." ++ d)

/-- New `ProcFinder.load` (`src/core/loader/proc_finder.py:34-110`) up to the
sorted `AddonModule` list; `none` models an uncaught exception (a failing
`import_module`) or fuel exhaustion. -/
def newFinderLoadAddonModules (env : LoaderEnv) (fuel : Nat)
    (dp em ewnd : Option (List String)) : Option (List AddonModule) :=
  let excl := newExcludePrefixes env em ewnd
  let mpaths := sortedModulePaths (newCollectWalk env dp)
  if mpaths.all env.importable then
    match loadInitAttr env fuel (debugFiltered env mpaths) { loaded := [], prio := [] } with
    | none => none
    | some (disabled, remaining, st) =>
      some (newSortedAddonModules env st
        (newLoadClasses env (excludeFiltered env (excl ++ disabled) remaining)))
  else none

/-- New `ProcFinder.load`, with the final `Plugins.from_addon_modules` wrap. -/
def newFinderLoad (env : LoaderEnv) (fuel : Nat) (dp em ewnd : Option (List String)) :
    Option Plugins :=
  (newFinderLoadAddonModules env fuel dp em ewnd).map Plugins.fromAddonModules

/-- Old `ProcFinder.load` (`src/core/proc_loader.py:157-208`). -/
def oldFinderLoad (env : LoaderEnv) (fuel : Nat) (dp em ewnd : List String) :
    Option (List (String × List PyClass)) :=
  let excl := oldExcludePrefixes env em ewnd
  let mpaths := sortedModulePaths (oldCollectWalk env dp)
  if mpaths.all env.importable then
    match loadInitAttr env fuel (debugFiltered env mpaths) { loaded := [], prio := [] } with
    | none => none
    | some (disabled, remaining, st) =>
      some (oldSortedModules env st
        (oldLoadClasses env (excludeFiltered env (excl ++ disabled) remaining)))
  else none

/-! ## AddonManager (`src/core/addon_manager.py`) -/

/-- Class object as seen by `AddonManager.register` / `unregister`. -/
structure BClass where
  blIdname : String
  isPropertyGroup : Bool
  isRegistered : Bool
  deriving Repr, DecidableEq

/-- Sequence of classes passed to `bpy.utils.register_class` by
`AddonManager.register` (`addon_manager.py:80-87`): the loaded classes whose
`bl_idname` is not already an attribute of `bpy.types` (`typesHas`), skipping
already-registered `PropertyGroup` subclasses. -/
def registerCalls (typesHas : String → Bool) (classes : List BClass) : List BClass :=
  (classes.filter (fun c => !typesHas c.blIdname)).filter
    (fun c => !(c.isPropertyGroup && c.isRegistered))

/-- Sequence of classes passed to `bpy.utils.unregister_class` by
`AddonManager.unregister` (`addon_manager.py:96-97`): all loaded classes in
reversed order. -/
def unregisterCalls (classes : List BClass) : List BClass :=
  classes.reverse

/-- Manager state relevant to `reload`: the debug flag, the
`"__addon_enabled__" in local_symbols` flag captured at construction, and the
loaded plugins. -/
structure AMState where
  isDebugMode : Bool
  isInitialized : Bool
  plugins : Plugins
  deriving Repr, DecidableEq

/-- Construction (`addon_manager.py:53-57`): `__is_initialized` records whether
`"__addon_enabled__"` occurs in the local symbols, and `__load` stores the
fresh load result. -/
def mkAddonManagerState (localSymbols : List String) (isDebugMode : Bool)
    (firstLoad : Plugins) : AMState :=
  { isDebugMode := isDebugMode
    isInitialized := localSymbols.contains "__addon_enabled__"
    plugins := firstLoad }

/-- `AddonManager.reload` (`addon_manager.py:101-118`): when not in debug mode
or not initialized it returns at once; otherwise it passes every loaded module
to `importlib.reload` (second component) and replaces the plugins with a fresh
`__load` result (`fresh`). -/
def amReload (st : AMState) (fresh : Plugins) : AMState × List String :=
  if !st.isDebugMode || !st.isInitialized then (st, [])
  else ({ st with plugins := fresh }, st.plugins.modules)

/-! ## PropertiesManager (`src/core/properties_manager.py`) -/

/-- Operator class given to `PropertiesManager.add` / `KeymapManager.add`;
`disabled` is `ProcLoader.is_disabled`: the disable-decorator attribute is
present and `True`. -/
structure POp where
  disabled : Bool
  deriving Repr, DecidableEq

/-- Registered `Property` object, identified by its mangled name (the
`PointerProperty` itself and the context are irrelevant to `add`). -/
structure MProp where
  name : String
  deriving Repr, DecidableEq

/-- Loop of `PropertiesManager.add` (`properties_manager.py:62-71`): skip
disabled operators, mangle the name with the add-on prefix, skip names already
present on the target type, otherwise create the `Property` (whose constructor
does `setattr(prop_type, name, prop)`, extending the attribute set at once).
`attrs` is the set of attribute names present on `prop_type`. -/
def pmAddGo (addonName : String) :
    List (String × POp) → List String → List String × List MProp
  | [], attrs => (attrs, [])
  | (n, op) :: rest, attrs =>
    if op.disabled then pmAddGo addonName rest attrs
    else
      let mangled := addonName ++ "_" ++ n
      if attrs.contains mangled then pmAddGo addonName rest attrs
      else
        let res := pmAddGo addonName rest (attrs ++ [mangled])
        (res.1, { name := mangled } :: res.2)

/-- `PropertiesManager.add`: returns the new attribute set of the target type,
the manager's property list (old list plus the newly created properties), and
the returned list of newly created properties. -/
def pmAdd (addonName : String) (attrs : List String) (pairs : List (String × POp))
    (mgr : List MProp) : List String × List MProp × List MProp :=
  let res := pmAddGo addonName pairs attrs
  (res.1, mgr ++ res.2, res.2)

/-! ## KeymapManager (`src/core/keymap_manager.py`) -/

/-- Key registration request (the `Key` dataclass). -/
structure BKey where
  operator : POp
  opIdname : String
  key : String
  keyModifier : String := "NONE"
  trigger : String := "PRESS"
  any : Bool := false
  shift : Bool := false
  ctrl : Bool := false
  alt : Bool := false
  oskey : Bool := false
  deriving Repr, DecidableEq

/-- Keymap created by `key_config.keymaps.new(...)`. -/
structure BKeymap where
  name : String
  spaceType : String
  regionType : String
  modal : Bool
  tool : Bool
  deriving Repr, DecidableEq

/-- Keymap item created by `keymap.keymap_items.new(...)`. -/
structure BKeymapItem where
  idname : String
  key : String
  trigger : String
  keyModifier : String
  any : Bool
  shift : Bool
  ctrl : Bool
  alt : Bool
  oskey : Bool
  deriving Repr, DecidableEq

/-- `keymap.keymap_items.new(k.operator.bl_idname, k.key, k.trigger, ...)`. -/
def kmNewItem (k : BKey) : BKeymapItem :=
  { idname := k.opIdname, key := k.key, trigger := k.trigger
    keyModifier := k.keyModifier, any := k.any, shift := k.shift, ctrl := k.ctrl
    alt := k.alt, oskey := k.oskey }

/-- Loop of `KeymapManager.add` (`keymap_manager.py:70-79`): one
`(keymap, keymap_item)` pair per key whose operator is not disabled. -/
def kmAddGo (km : BKeymap) : List BKey → List (BKeymap × BKeymapItem)
  | [] => []
  | k :: rest =>
    if k.operator.disabled then kmAddGo km rest
    else (km, kmNewItem k) :: kmAddGo km rest

/-- `KeymapManager.add`: when the host exposes no addon key configuration
(`keyConfig = false`) it returns `[]` and leaves the shortcut list unchanged;
otherwise it returns the pairs created in this call and appends them to the
manager's shortcut list. -/
def kmAdd (keyConfig : Bool) (keys : List BKey) (name spaceType regionType : String)
    (modal tool : Bool) (shortcuts : List (BKeymap × BKeymapItem)) :
    List (BKeymap × BKeymapItem) × List (BKeymap × BKeymapItem) :=
  if !keyConfig then ([], shortcuts)
  else
    let km : BKeymap :=
      { name := name, spaceType := spaceType, regionType := regionType
        modal := modal, tool := tool }
    let ret := kmAddGo km keys
    (ret, shortcuts ++ ret)

/-! ## Cache (`src/core/loader/cache_loader.py`, `ProcLoader.__write_cache`) -/

/-- `gen_msg` (`src/core/utils/gen_msg.py`):
`f"{sender.__name__}: {type}: {msg}"`. -/
def genMsg (sender msgType msg : String) : String :=
  sender ++ ": " ++ msgType ++ ": " ++ msg

/-- Class object reachable from a cached module; `add_attribute` may set its
`bl_idname` / `bl_category`. -/
structure CCls where
  name : String
  blIdname : Option String := none
  blCategory : Option String := none
  isPanel : Bool := false
  deriving Repr, DecidableEq

/-- Module object reachable through `import_module` during a cache load. -/
structure CMod where
  name : String
  deriving Repr, DecidableEq

/-- `AddonModule` as produced by the cache loader. -/
structure CacheModule where
  module : CMod
  classes : List CCls
  deriving Repr, DecidableEq

/-- `ProcLoader.__write_cache` (`proc_loader.py:170-183`): the JSON payload,
one `{"module": ..., "classes": [...]}` entry per `AddonModule`;
`json.dump` followed by `json.load` reproduces this structure exactly. -/
def writeCacheData (mods : List CacheModule) : List (String × List String) :=
  mods.map (fun am => (am.module.name, am.classes.map (fun c => c.name)))

/-- `ProcLoader.add_attribute` (`proc_loader.py:150-168`). -/
def addAttribute (catName : Option String) (c : CCls) : CCls :=
  let c1 := if c.blIdname.isNone then { c with blIdname := some c.name } else c
  if catName.isSome && c1.isPanel && c1.blCategory.isNone then
    { c1 with blCategory := catName }
  else c1

/-- Error raised by `CacheLoader.load` when the cache file does not exist. -/
inductive CacheError where
  | fileNotFound (msg : String)
  deriving Repr, DecidableEq

/-- Import environment of a cache load: `import_module` by module name and
`getattr` by module and class name. -/
structure CacheEnv where
  importM : String → CMod
  getattrC : String → String → CCls

/-- `CacheLoader.load` (`cache_loader.py:28-52`): a missing file raises
`FileNotFoundError` with the `gen_msg` text; otherwise each entry is resolved
by importing the module and fetching each class by name (through
`add_attribute`). -/
def cacheLoad (env : CacheEnv) (catName : Option String)
    (file : Option (List (String × List String))) : Except CacheError (List CacheModule) :=
  match file with
  | none =>
    Except.error (CacheError.fileNotFound (genMsg "CacheLoader" "Critical"
      "The cache for the add-on's module has not yet been created.\nPlease temporarily enable debug mode for the add-on and restart."))
  | some entries =>
    Except.ok (entries.map (fun en =>
      { module := env.importM en.1
        classes := en.2.map (fun cn => addAttribute catName (env.getattrC en.1 cn)) }))

/-! ## Claim theorems -/

theorem pkLt_eq_false_none : ∀ x : Option Int, pkLt x none = false → x = none := by
  intro x h
  cases x with
  | none => rfl
  | some v => simp [pkLt] at h

/-- C2 (amended): in each module the classes are sorted stably and ascending by
the `addon_proc_priority` key, where the sentinel value `-1` counts as no
priority: the sorted list is a permutation of the discovered classes, its keys
are ascending, every class whose key is infinite (no priority, or priority
`-1`) comes after all finitely prioritized classes, and classes with equal
keys (in particular all unprioritized ones) keep their discovery order. -/
theorem c2_class_sort (cs : List PyClass) (v : Option Int) :
    (sortClasses cs).Perm cs
    ∧ (sortClasses cs).Pairwise
        (fun a b => pkLt (classSortKey b) (classSortKey a) = false)
    ∧ (sortClasses cs).Pairwise
        (fun a b => classSortKey a = none → classSortKey b = none)
    ∧ (sortClasses cs).filter (fun c => decide (classSortKey c = v)) =
        cs.filter (fun c => decide (classSortKey c = v)) := by
  refine ⟨stableSort_perm _ cs, ?_, ?_, ?_⟩
  · exact stableSort_pairwise
      (fun a b : PyClass => pkLt (classSortKey a) (classSortKey b))
      (fun a b h => pkLt_asymm _ _ h)
      (fun a b c h1 h2 => pkLt_le_trans _ _ _ h1 h2) cs
  · have hp := stableSort_pairwise
      (fun a b : PyClass => pkLt (classSortKey a) (classSortKey b))
      (fun a b h => pkLt_asymm _ _ h)
      (fun a b c h1 h2 => pkLt_le_trans _ _ _ h1 h2) cs
    refine hp.imp ?_
    intro a b h ha
    rw [ha] at h
    exact pkLt_eq_false_none _ h
  · exact stableSort_filter _ classSortKey (fun a b => rfl) cs v

/-- Class without a priority attribute, discovered first. -/
def c2ClassNoPriority : PyClass :=
  { name := "AlphaOp", isTarget := true, priorityAttr := none }

/-- Class decorated `priority(-1)`, discovered second. -/
def c2ClassMinusOne : PyClass :=
  { name := "BetaOp", isTarget := true, priorityAttr := some (-1) }

/-- C2 counterexample: a class carrying the explicit priority `-1` does not
precede a class without any priority — the sort leaves the unprioritized
class, discovered first, in front of it. -/
theorem c2_class_sort_counterexample :
    sortClasses [c2ClassNoPriority, c2ClassMinusOne] =
      [c2ClassNoPriority, c2ClassMinusOne]
    ∧ c2ClassMinusOne.priorityAttr.isSome = true
    ∧ c2ClassNoPriority.priorityAttr = none := by
  decide

/-- C4: `ProcFinder.load` is deterministic — for a fixed environment (directory
tree, module contents) and fixed arguments, two successful runs return the
same plugins. -/
theorem c4_deterministic (env : LoaderEnv) (fuel : Nat)
    (dp em ewnd : Option (List String)) (r1 r2 : Plugins)
    (h1 : newFinderLoad env fuel dp em ewnd = some r1)
    (h2 : newFinderLoad env fuel dp em ewnd = some r2) : r1 = r2 := by
  rw [h1] at h2
  exact Option.some.inj h2

/-- Environment of the determinism witness: one add-on package `A` containing
an empty `__init__.py` and one module `m.py` with a single target class. -/
def envDet : LoaderEnv :=
  { path := "/r", addonName := "A", isDebugMode := true, managerRootName := "manager"
    walk := [("/r/A", ["__init__.py", "m.py"])]
    importable := fun _ => true
    modules := fun p =>
      if p = "A.__init__" then { file := "/r/A/__init__.py", package := some "A" }
      else if p = "A.m" then
        { file := "/r/A/m.py", package := some "A"
          classes := [{ name := "OpM", isTarget := true, priorityAttr := none }] }
      else {} }

/-- Load result of `envDet`. -/
def pluginsDet : Plugins :=
  { modules := ["A.m"]
    classes := [{ name := "OpM", isTarget := true, priorityAttr := none }] }

theorem c4_deterministic_witness : pluginsDet = pluginsDet :=
  c4_deterministic envDet 9 none none none pluginsDet pluginsDet (by decide) (by decide)

/-- C5 (amended): `unregister` passes all loaded classes to `unregister_class`
in reverse discovery order; `register` passes a sublist of the discovery order
to `register_class` (it skips classes whose `bl_idname` already exists on
`bpy.types` and already-registered `PropertyGroup` subclasses), so every class
it registers is also unregistered; when no class is skipped the unregistration
order is exactly the reverse of the registration order. -/
theorem c5_register_unregister (typesHas : String → Bool) (classes : List BClass) :
    unregisterCalls classes = classes.reverse
    ∧ (registerCalls typesHas classes).Sublist classes
    ∧ (∀ c ∈ registerCalls typesHas classes, c ∈ unregisterCalls classes)
    ∧ ((∀ c ∈ classes,
          typesHas c.blIdname = false ∧ (c.isPropertyGroup && c.isRegistered) = false) →
        unregisterCalls classes = (registerCalls typesHas classes).reverse) := by
  have hsub : (registerCalls typesHas classes).Sublist classes := by
    unfold registerCalls
    exact (List.filter_sublist _).trans (List.filter_sublist _)
  refine ⟨rfl, hsub, ?_, ?_⟩
  · intro c hc
    unfold unregisterCalls
    exact List.mem_reverse.mpr (hsub.mem hc)
  · intro hall
    have h2 : classes.filter (fun c => !typesHas c.blIdname) = classes := by
      refine List.filter_eq_self.mpr ?_
      intro c hc
      simp [(hall c hc).1]
    have h3 : classes.filter (fun c => !(c.isPropertyGroup && c.isRegistered)) = classes := by
      refine List.filter_eq_self.mpr ?_
      intro c hc
      simp [(hall c hc).2]
    unfold unregisterCalls registerCalls
    rw [h2, h3]

/-- Class skipped by `register` because its `bl_idname` already exists on
`bpy.types`. -/
def c5SkippedClass : BClass :=
  { blIdname := "Operator", isPropertyGroup := false, isRegistered := false }

/-- C5 counterexample: with one loaded class whose `bl_idname` exists on
`bpy.types`, `register` calls `register_class` on nothing, while `unregister`
still calls `unregister_class` on that class — the call sequences are not
exact reverses of each other. -/
theorem c5_register_unregister_counterexample :
    unregisterCalls [c5SkippedClass] ≠
      (registerCalls (fun _ => true) [c5SkippedClass]).reverse := by
  decide

/-- Class passing all of `register`'s filters. -/
def c5KeptClass : BClass :=
  { blIdname := "MYADDON_OT_op", isPropertyGroup := false, isRegistered := false }

theorem c5_register_unregister_witness :
    unregisterCalls [c5KeptClass] = (registerCalls (fun _ => false) [c5KeptClass]).reverse :=
  (c5_register_unregister (fun _ => false) [c5KeptClass]).2.2.2 (by decide)

/-- C6: `AddonManager.reload` re-runs module reloading and rediscovery only in
debug mode with the add-on already enabled at construction
(`"__addon_enabled__"` among the local symbols); in every other case it
returns at once, reloads no module, and leaves the plugin state unchanged. -/
theorem c6_reload_frame (st : AMState) (fresh : Plugins) :
    (st.isDebugMode = false ∨ st.isInitialized = false → amReload st fresh = (st, []))
    ∧ (st.isDebugMode = true → st.isInitialized = true →
        (amReload st fresh).1.plugins = fresh
        ∧ (amReload st fresh).2 = st.plugins.modules)
    ∧ (∀ syms dbg p,
        (mkAddonManagerState syms dbg p).isInitialized = syms.contains "__addon_enabled__"
        ∧ (mkAddonManagerState syms dbg p).plugins = p) := by
  refine ⟨?_, ?_, fun syms dbg p => ⟨rfl, rfl⟩⟩
  · intro h
    rcases h with h | h
    · simp [amReload, h]
    · simp [amReload, h]
  · intro h1 h2
    simp [amReload, h1, h2]

/-- Disabled plugin state for the reload-frame witness. -/
def amStateOff : AMState :=
  { isDebugMode := false, isInitialized := true
    plugins := { modules := ["A.m"], classes := [] } }

theorem c6_reload_frame_witness :
    amReload amStateOff { modules := [], classes := [] } = (amStateOff, []) :=
  (c6_reload_frame amStateOff { modules := [], classes := [] }).1 (Or.inl rfl)

theorem pmAddGo_attrs (a : String) (pairs : List (String × POp)) :
    ∀ attrs, (pmAddGo a pairs attrs).1 =
      attrs ++ ((pmAddGo a pairs attrs).2).map (fun p => p.name) := by
  induction pairs with
  | nil => intro attrs; simp [pmAddGo]
  | cons q rest ih =>
    intro attrs
    obtain ⟨n, op⟩ := q
    by_cases hd : op.disabled
    · simpa only [pmAddGo, hd, if_true] using ih attrs
    · by_cases hc : attrs.contains (a ++ "_" ++ n)
      · simpa only [pmAddGo, hd, hc, if_true, if_false, Bool.false_eq_true] using ih attrs
      · simp only [pmAddGo, hd, hc, if_false, Bool.false_eq_true, List.map_cons]
        rw [ih (attrs ++ [a ++ "_" ++ n])]
        simp

theorem pmAddGo_mem (a : String) (pairs : List (String × POp)) :
    ∀ attrs, ∀ p ∈ (pmAddGo a pairs attrs).2,
      p.name ∉ attrs ∧ ∃ q ∈ pairs, q.2.disabled = false ∧ p.name = a ++ "_" ++ q.1 := by
  induction pairs with
  | nil => intro attrs p hp; simp [pmAddGo] at hp
  | cons q rest ih =>
    intro attrs p hp
    obtain ⟨n, op⟩ := q
    by_cases hd : op.disabled
    · simp only [pmAddGo, hd, if_true] at hp
      obtain ⟨hpn, qq, hq, hqd, hqn⟩ := ih attrs p hp
      exact ⟨hpn, qq, List.mem_cons_of_mem _ hq, hqd, hqn⟩
    · by_cases hc : attrs.contains (a ++ "_" ++ n)
      · simp only [pmAddGo, hd, hc, if_true, if_false, Bool.false_eq_true] at hp
        obtain ⟨hpn, qq, hq, hqd, hqn⟩ := ih attrs p hp
        exact ⟨hpn, qq, List.mem_cons_of_mem _ hq, hqd, hqn⟩
      · simp only [pmAddGo, hd, hc, if_false, Bool.false_eq_true] at hp
        rcases List.mem_cons.mp hp with hpm | hptail
        · subst hpm
          refine ⟨?_, (n, op), List.mem_cons_self _ _, by simpa using hd, rfl⟩
          intro hmem
          exact hc (List.elem_eq_true_of_mem hmem)
        · obtain ⟨hpn, qq, hq, hqd, hqn⟩ := ih (attrs ++ [a ++ "_" ++ n]) p hptail
          refine ⟨fun hmem => hpn (List.mem_append_left _ hmem),
            qq, List.mem_cons_of_mem _ hq, hqd, hqn⟩

theorem pmAddGo_nodup (a : String) (pairs : List (String × POp)) :
    ∀ attrs, (pairs.map (fun q => a ++ "_" ++ q.1)).Nodup →
      ((pmAddGo a pairs attrs).2).map (fun p => p.name) =
        (pairs.filter (fun q =>
          !q.2.disabled && !attrs.contains (a ++ "_" ++ q.1))).map
          (fun q => a ++ "_" ++ q.1) := by
  induction pairs with
  | nil => intro attrs _; simp [pmAddGo]
  | cons q rest ih =>
    intro attrs hnd
    obtain ⟨n, op⟩ := q
    simp only [List.map_cons, List.nodup_cons] at hnd
    obtain ⟨hhead, htail⟩ := hnd
    by_cases hd : op.disabled
    · simp only [pmAddGo, hd, if_true, List.filter_cons, Bool.not_true, Bool.false_and,
        Bool.false_eq_true, if_false]
      exact ih attrs htail
    · simp only [Bool.not_eq_true] at hd
      by_cases hc : attrs.contains (a ++ "_" ++ n)
      · simp only [pmAddGo, hd, hc, if_true, if_false, Bool.false_eq_true,
          List.filter_cons, Bool.not_true, Bool.not_false, Bool.true_and,
          Bool.and_false, Bool.and_true]
        exact ih attrs htail
      · simp only [Bool.not_eq_true] at hc
        simp only [pmAddGo, hd, hc, Bool.false_eq_true, if_false, List.filter_cons,
          Bool.not_false, Bool.true_and, if_true, List.map_cons]
        rw [ih (attrs ++ [a ++ "_" ++ n]) htail]
        have hfe : rest.filter
              (fun q => !q.2.disabled && !(attrs ++ [a ++ "_" ++ n]).contains (a ++ "_" ++ q.1)) =
            rest.filter (fun q => !q.2.disabled && !attrs.contains (a ++ "_" ++ q.1)) := by
          apply List.filter_congr
          intro qq hqq
          have hne : ¬ a ++ "_" ++ qq.1 = a ++ "_" ++ n := by
            intro heq
            exact hhead (List.mem_map.mpr ⟨qq, hqq, heq⟩)
          have hco : (attrs ++ [a ++ "_" ++ n]).contains (a ++ "_" ++ qq.1) =
              attrs.contains (a ++ "_" ++ qq.1) := by
            by_cases hm : a ++ "_" ++ qq.1 ∈ attrs
            · rw [Bool.eq_iff_iff, List.elem_iff, List.elem_iff]
              simp [hm]
            · rw [Bool.eq_iff_iff, List.elem_iff, List.elem_iff]
              simp [hm, hne]
          rw [hco]
        rw [hfe]

/-- C7: every property registered by `PropertiesManager.add` is attached under
the mangled name `<addon name>_<given name>`; the target type's attribute set
grows by exactly the names of the newly created properties; pairs whose
operator class is disabled, or whose mangled name already exists on the target
type, create nothing (the function returns normally — the raising branches of
the source are commented out); the returned list is exactly the list of newly
created properties, which is also exactly what is appended to the manager's
internal list; and when the mangled input names are distinct, the registered
names are exactly those of the non-disabled pairs whose mangled name was not
already present on the target type, in input order. -/
theorem c7_properties_add (addonName : String) (attrs : List String)
    (pairs : List (String × POp)) (mgr : List MProp) :
    (pmAdd addonName attrs pairs mgr).2.1 = mgr ++ (pmAdd addonName attrs pairs mgr).2.2
    ∧ (pmAdd addonName attrs pairs mgr).1 =
        attrs ++ ((pmAdd addonName attrs pairs mgr).2.2).map (fun p => p.name)
    ∧ (∀ p ∈ (pmAdd addonName attrs pairs mgr).2.2,
        p.name ∉ attrs
        ∧ ∃ q ∈ pairs, q.2.disabled = false ∧ p.name = addonName ++ "_" ++ q.1)
    ∧ ((pairs.map (fun q => addonName ++ "_" ++ q.1)).Nodup →
        ((pmAdd addonName attrs pairs mgr).2.2).map (fun p => p.name) =
          (pairs.filter (fun q =>
            !q.2.disabled && !attrs.contains (addonName ++ "_" ++ q.1))).map
            (fun q => addonName ++ "_" ++ q.1)) :=
  ⟨rfl, pmAddGo_attrs addonName pairs attrs, pmAddGo_mem addonName pairs attrs,
    pmAddGo_nodup addonName pairs attrs⟩

/-- Input pairs of the C7 witness: two enabled operators and a disabled one,
with `AD_x` already present on the target type. -/
def c7Pairs : List (String × POp) :=
  [("x", { disabled := false }), ("y", { disabled := false }),
   ("z", { disabled := true })]

theorem c7_properties_add_witness :
    ((pmAdd "AD" ["AD_x"] c7Pairs []).2.2).map (fun p => p.name) =
      (c7Pairs.filter (fun q =>
        !q.2.disabled && !(["AD_x"].contains ("AD" ++ "_" ++ q.1)))).map
        (fun q => "AD" ++ "_" ++ q.1) :=
  (c7_properties_add "AD" ["AD_x"] c7Pairs []).2.2.2 (by decide)

theorem kmAddGo_spec (km : BKeymap) (keys : List BKey) :
    kmAddGo km keys =
      (keys.filter (fun k => !k.operator.disabled)).map (fun k => (km, kmNewItem k)) := by
  induction keys with
  | nil => simp [kmAddGo]
  | cons k rest ih =>
    by_cases hd : k.operator.disabled
    · simp [kmAddGo, hd, List.filter_cons, ih]
    · simp [kmAddGo, hd, List.filter_cons, ih]

/-- C8: `KeymapManager.add` returns exactly the `(keymap, keymap item)` pairs
created in this call — one per given key whose operator class is not disabled,
in input order, all sharing the keymap created for the given location — and
appends exactly those pairs to the manager's internal shortcut list; when the
host exposes no addon key configuration it returns `[]` and registers
nothing. -/
theorem c8_keymap_add (keyConfig : Bool) (keys : List BKey)
    (name spaceType regionType : String) (modal tool : Bool)
    (shortcuts : List (BKeymap × BKeymapItem)) :
    (keyConfig = false →
      kmAdd keyConfig keys name spaceType regionType modal tool shortcuts =
        ([], shortcuts))
    ∧ (kmAdd keyConfig keys name spaceType regionType modal tool shortcuts).2 =
        shortcuts ++ (kmAdd keyConfig keys name spaceType regionType modal tool shortcuts).1
    ∧ (keyConfig = true →
        (kmAdd keyConfig keys name spaceType regionType modal tool shortcuts).1 =
          (keys.filter (fun k => !k.operator.disabled)).map
            (fun k =>
              ({ name := name, spaceType := spaceType, regionType := regionType
                 modal := modal, tool := tool }, kmNewItem k))) := by
  refine ⟨?_, ?_, ?_⟩
  · intro h
    simp [kmAdd, h]
  · cases keyConfig
    · simp [kmAdd]
    · simp [kmAdd]
  · intro h
    subst h
    simp only [kmAdd, Bool.not_true, Bool.false_eq_true, if_false]
    exact kmAddGo_spec _ keys

/-- Keys of the C8 witness: one enabled and one disabled operator. -/
def c8Keys : List BKey :=
  [{ operator := { disabled := false }, opIdname := "ad.op_a", key := "A" },
   { operator := { disabled := true }, opIdname := "ad.op_b", key := "B" }]

theorem c8_keymap_add_witness :
    (kmAdd false c8Keys "Window" "EMPTY" "WINDOW" false false [] = ([], []))
    ∧ (kmAdd true c8Keys "Window" "EMPTY" "WINDOW" false false []).1 =
        (c8Keys.filter (fun k => !k.operator.disabled)).map
          (fun k =>
            ({ name := "Window", spaceType := "EMPTY", regionType := "WINDOW"
               modal := false, tool := false }, kmNewItem k)) :=
  ⟨(c8_keymap_add false c8Keys "Window" "EMPTY" "WINDOW" false false []).1 rfl,
   (c8_keymap_add true c8Keys "Window" "EMPTY" "WINDOW" false false []).2.2 rfl⟩

theorem addAttribute_name (catName : Option String) (c : CCls) :
    (addAttribute catName c).name = c.name := by
  unfold addAttribute
  by_cases h1 : c.blIdname.isNone
  · simp only [h1, if_true]
    by_cases h2 : (catName.isSome && c.isPanel && c.blCategory.isNone) = true
    · simp [h2]
    · simp only [Bool.not_eq_true] at h2
      simp [h2]
  · simp only [h1, Bool.false_eq_true, if_false]
    by_cases h2 : (catName.isSome && c.isPanel && c.blCategory.isNone) = true
    · simp [h2]
    · simp only [Bool.not_eq_true] at h2
      simp [h2]

/-- C9: cache round-trip — writing the cache for any `AddonModule` list and
loading it back yields entries whose module names and class names equal, in
order, those of the original list (provided importing a name yields a module
of that name and fetching a class attribute by name yields a class of that
name, as CPython guarantees for classes defined under their own names); and
loading a non-existent cache file raises `FileNotFoundError` with the
`gen_msg` text. -/
theorem c9_cache_roundtrip (env : CacheEnv) (catName : Option String)
    (mods : List CacheModule)
    (himp : ∀ s, (env.importM s).name = s)
    (hget : ∀ m c, (env.getattrC m c).name = c) :
    (∃ out, cacheLoad env catName (some (writeCacheData mods)) = Except.ok out
      ∧ out.map (fun am => (am.module.name, am.classes.map (fun c => c.name))) =
          mods.map (fun am => (am.module.name, am.classes.map (fun c => c.name))))
    ∧ cacheLoad env catName none =
        Except.error (CacheError.fileNotFound (genMsg "CacheLoader" "Critical"
          "The cache for the add-on's module has not yet been created.\nPlease temporarily enable debug mode for the add-on and restart.")) := by
  constructor
  · refine ⟨_, rfl, ?_⟩
    unfold writeCacheData
    rw [List.map_map, List.map_map]
    apply List.map_congr_left
    intro am _
    simp only [Function.comp_apply]
    rw [himp am.module.name]
    congr 1
    rw [List.map_map, List.map_map]
    apply List.map_congr_left
    intro c _
    simp only [Function.comp_apply]
    rw [addAttribute_name, hget]
  · rfl

/-- Import environment of the C9 witness: importing a name yields a module so
named; `getattr` yields a class carrying the requested name. -/
def cacheEnvW : CacheEnv :=
  { importM := fun s => { name := s }
    getattrC := fun _ c => { name := c } }

/-- Cached module list of the C9 witness. -/
def cacheModsW : List CacheModule :=
  [{ module := { name := "A.m" }
     classes := [{ name := "OpA" }, { name := "OpB" }] }]

theorem c9_cache_roundtrip_witness :
    (∃ out, cacheLoad cacheEnvW none (some (writeCacheData cacheModsW)) = Except.ok out
      ∧ out.map (fun am => (am.module.name, am.classes.map (fun c => c.name))) =
          cacheModsW.map (fun am => (am.module.name, am.classes.map (fun c => c.name))))
    ∧ cacheLoad cacheEnvW none none =
        Except.error (CacheError.fileNotFound (genMsg "CacheLoader" "Critical"
          "The cache for the add-on's module has not yet been created.\nPlease temporarily enable debug mode for the add-on and restart.")) :=
  c9_cache_roundtrip cacheEnvW none cacheModsW (fun s => rfl) (fun m c => rfl)

theorem newExcludePrefixes_eq_old (env : LoaderEnv) (em ewnd : List String)
    (h : env.managerRootName = "core") :
    newExcludePrefixes env (some em) (some ewnd) = oldExcludePrefixes env em ewnd := by
  unfold newExcludePrefixes oldExcludePrefixes
  rw [h]
  cases env.isDebugMode <;> simp

theorem newCollectWalk_eq_old (env : LoaderEnv) (dp : List String) :
    newCollectWalk env (some dp) = oldCollectWalk env dp := rfl

theorem oldLoadClasses_eq_new (env : LoaderEnv) (mods : List String) :
    oldLoadClasses env mods =
      (newLoadClasses env mods).map (fun am => (am.module, am.classes)) := by
  unfold oldLoadClasses newLoadClasses
  rw [List.map_map]
  rfl

theorem oldSortedModules_map (env : LoaderEnv) (st : PrState) (ams : List AddonModule) :
    oldSortedModules env st (ams.map (fun am => (am.module, am.classes))) =
      (newSortedAddonModules env st ams).map (fun am => (am.module, am.classes)) := by
  unfold oldSortedModules newSortedAddonModules
  exact stableSort_map _ _ _ (fun a b => rfl) ams

/-- C10 (amended): the old and the new `ProcFinder.load` are equivalent — same
modules in the same order with the same per-module class lists (the new
version's `Plugins` return value is the flattening of that `AddonModule`
list) — provided the two versions derive the same self-exclusion directory
name: the old one uses the name of the folder the manager is vendored into
(`basename(dirname(dirname(__file__)))` of a file directly under `core/`),
while the new one always derives `"core"`. -/
theorem c10_finder_equivalence (env : LoaderEnv) (fuel : Nat) (dp em ewnd : List String)
    (h : env.managerRootName = "core") :
    oldFinderLoad env fuel dp em ewnd =
      (newFinderLoadAddonModules env fuel (some dp) (some em) (some ewnd)).map
        (List.map (fun am => (am.module, am.classes)))
    ∧ newFinderLoad env fuel (some dp) (some em) (some ewnd) =
        (newFinderLoadAddonModules env fuel (some dp) (some em) (some ewnd)).map
          Plugins.fromAddonModules := by
  refine ⟨?_, rfl⟩
  unfold oldFinderLoad newFinderLoadAddonModules
  rw [newCollectWalk_eq_old, newExcludePrefixes_eq_old env em ewnd h]
  by_cases hall : (sortedModulePaths (oldCollectWalk env dp)).all env.importable
  · simp only [hall, if_true]
    cases hM : loadInitAttr env fuel
        (debugFiltered env (sortedModulePaths (oldCollectWalk env dp)))
        { loaded := [], prio := [] } with
    | none => rfl
    | some res =>
      obtain ⟨disabled, remaining, st⟩ := res
      dsimp only
      rw [oldLoadClasses_eq_new, oldSortedModules_map]
      rfl
  · simp only [hall, Bool.false_eq_true, if_false]
    rfl

/-- Environment of the C10 counterexample: the manager is vendored into a
folder named `manager`, and the add-on has a user folder `core/` with one
module in it. -/
def envC10 : LoaderEnv :=
  { path := "/r", addonName := "A", isDebugMode := true, managerRootName := "manager"
    walk := [("/r/A/core", ["x.py"])]
    importable := fun _ => true
    modules := fun p =>
      if p = "A.core.x" then
        { file := "/r/A/core/x.py", package := some "A.core"
          classes := [{ name := "OpX", isTarget := true, priorityAttr := none }] }
      else {} }

/-- C10 counterexample: on a tree holding the module `A.core.x`, the old
loader (self-exclusion prefix `A.manager`) keeps the module while the new one
(self-exclusion prefix `A.core`) excludes it, so the two versions return
different results for the same arguments. -/
theorem c10_finder_equivalence_counterexample :
    oldFinderLoad envC10 3 [] [] [] ≠
      (newFinderLoadAddonModules envC10 3 (some []) (some []) (some [])).map
        (List.map (fun am => (am.module, am.classes))) := by
  decide

/-- Environment of the C10 witness: the manager vendored into a folder that is
itself named `core`, so both versions compute the same self-exclusion. -/
def envC10W : LoaderEnv :=
  { path := "/r", addonName := "A", isDebugMode := true, managerRootName := "core"
    walk := [("/r/A", ["__init__.py", "m.py"])]
    importable := fun _ => true
    modules := fun p =>
      if p = "A.__init__" then { file := "/r/A/__init__.py", package := some "A" }
      else if p = "A.m" then
        { file := "/r/A/m.py", package := some "A"
          classes := [{ name := "OpM", isTarget := true, priorityAttr := none }] }
      else {} }

theorem c10_finder_equivalence_witness :
    oldFinderLoad envC10W 9 [] [] [] =
      (newFinderLoadAddonModules envC10W 9 (some []) (some []) (some [])).map
        (List.map (fun am => (am.module, am.classes))) :=
  (c10_finder_equivalence envC10W 9 [] [] [] rfl).1

theorem chainPairs_cons (a : String × Nat) (tr : List (String × Nat))
    (h : List.Chain' (fun x y => x.2 < y.2) tr) (hb : ∀ x ∈ tr, a.2 < x.2) :
    List.Chain' (fun x y => x.2 < y.2) (a :: tr) := by
  refine List.chain'_cons'.mpr ⟨?_, h⟩
  intro b hbh
  exact hb b (List.mem_of_mem_head? hbh)

theorem chainPairs_append (tr1 tr2 : List (String × Nat)) (b : Nat)
    (h1 : List.Chain' (fun x y => x.2 < y.2) tr1)
    (h2 : List.Chain' (fun x y => x.2 < y.2) tr2)
    (hb1 : ∀ x ∈ tr1, x.2 < b) (hb2 : ∀ y ∈ tr2, b ≤ y.2) :
    List.Chain' (fun x y => x.2 < y.2) (tr1 ++ tr2) := by
  refine List.Chain'.append h1 h2 ?_
  intro x hx y hy
  exact lt_of_lt_of_le (hb1 x (List.mem_of_mem_getLast? hx)) (hb2 y (List.mem_of_mem_head? hy))

/-- Main invariant of `__set_module_priority`: a successful run never
decreases `priority_count`, the `ADDON_MODULE_PRIORITY` values of its
assignment trace are strictly increasing and lie in `[c, c')`, and the set of
`ADDON_INIT_LOADED` marks only grows. -/
theorem smpGo_invariant (env : LoaderEnv) :
    ∀ fuel job st c st' c' tr, smpGo env fuel job st c = some (st', c', tr) →
      c ≤ c'
      ∧ List.Chain' (fun x y => x.2 < y.2) tr
      ∧ (∀ x ∈ tr, c ≤ x.2 ∧ x.2 < c')
      ∧ (∀ q ∈ st.loaded, q ∈ st'.loaded) := by
  intro fuel
  induction fuel with
  | zero =>
    intro job st c st' c' tr h
    simp [smpGo] at h
  | succ f ih =>
    intro job st c st' c' tr h
    cases job with
    | init p =>
      by_cases hL : initLoadedCheck env st p
      · simp only [smpGo, hL, if_true, Option.some.injEq, Prod.mk.injEq] at h
        obtain ⟨rfl, rfl, rfl⟩ := h
        exact ⟨le_refl c, List.chain'_nil, by simp, fun q hq => hq⟩
      · simp only [smpGo, hL, Bool.false_eq_true, if_false] at h
        cases hpa : (env.modules p).priorityAttr with
        | none =>
          rw [hpa] at h
          simp only [Option.some.injEq, Prod.mk.injEq] at h
          obtain ⟨rfl, rfl, rfl⟩ := h
          exact ⟨le_refl c, List.chain'_nil, by simp,
            fun q hq => List.mem_cons_of_mem _ hq⟩
        | some l =>
          rw [hpa] at h
          cases hpk : (env.modules p).package with
          | none =>
            rw [hpk] at h
            simp only [Option.some.injEq, Prod.mk.injEq] at h
            obtain ⟨rfl, rfl, rfl⟩ := h
            exact ⟨le_refl c, List.chain'_nil, by simp,
              fun q hq => List.mem_cons_of_mem _ hq⟩
          | some pkg =>
            rw [hpk] at h
            obtain ⟨hc, hch, hbnd, hld⟩ := ih _ _ _ _ _ _ h
            exact ⟨hc, hch, hbnd, fun q hq => hld q (List.mem_cons_of_mem _ hq)⟩
    | entries pkgPath l =>
      cases l with
      | nil =>
        simp only [smpGo, Option.some.injEq, Prod.mk.injEq] at h
        obtain ⟨rfl, rfl, rfl⟩ := h
        exact ⟨le_refl c, List.chain'_nil, by simp, fun q hq => hq⟩
      | cons e rest =>
        simp only [smpGo] at h
        by_cases himp : env.importable (pkgPath ++ e)
        · rw [himp] at h
          simp only [if_true] at h
          by_cases hpkg : (env.modules (pkgPath ++ e)).isPkg
          · simp only [hpkg, if_true] at h
            by_cases hini : env.importable (pkgPath ++ e ++ ".__init__")
            · simp only [hini, if_true] at h
              cases hstep : smpGo env f (SmpJob.init (pkgPath ++ e ++ ".__init__")) st c with
              | none => rw [hstep] at h; simp at h
              | some res1 =>
                obtain ⟨st2, c2, tr1⟩ := res1
                rw [hstep] at h
                dsimp only at h
                cases hrest : smpGo env f (SmpJob.entries pkgPath rest) st2 (c2 + 1) with
                | none => rw [hrest] at h; simp at h
                | some res2 =>
                  obtain ⟨st3, c3, tr2⟩ := res2
                  rw [hrest] at h
                  simp only [Option.some.injEq, Prod.mk.injEq] at h
                  obtain ⟨rfl, rfl, rfl⟩ := h
                  obtain ⟨hc1, hch1, hbnd1, hld1⟩ := ih _ _ _ _ _ _ hstep
                  obtain ⟨hc2, hch2, hbnd2, hld2⟩ := ih _ _ _ _ _ _ hrest
                  refine ⟨by omega, ?_, ?_, fun q hq => hld2 q (hld1 q hq)⟩
                  · refine chainPairs_append tr1 tr2 (c2 + 1) hch1 hch2 ?_ ?_
                    · intro x hx; exact Nat.lt_succ_of_lt (hbnd1 x hx).2
                    · intro y hy; exact (hbnd2 y hy).1
                  · intro x hx
                    rcases List.mem_append.mp hx with hx1 | hx2
                    · have := hbnd1 x hx1; omega
                    · have := hbnd2 x hx2; omega
            · simp only [hini, Bool.false_eq_true, if_false] at h
              cases hstep : smpGo env f
                  (SmpJob.members (env.modules (pkgPath ++ e)).members) st c with
              | none => rw [hstep] at h; simp at h
              | some res1 =>
                obtain ⟨st2, c2, tr1⟩ := res1
                rw [hstep] at h
                dsimp only at h
                cases hrest : smpGo env f (SmpJob.entries pkgPath rest) st2 (c2 + 1) with
                | none => rw [hrest] at h; simp at h
                | some res2 =>
                  obtain ⟨st3, c3, tr2⟩ := res2
                  rw [hrest] at h
                  simp only [Option.some.injEq, Prod.mk.injEq] at h
                  obtain ⟨rfl, rfl, rfl⟩ := h
                  obtain ⟨hc1, hch1, hbnd1, hld1⟩ := ih _ _ _ _ _ _ hstep
                  obtain ⟨hc2, hch2, hbnd2, hld2⟩ := ih _ _ _ _ _ _ hrest
                  refine ⟨by omega, ?_, ?_, fun q hq => hld2 q (hld1 q hq)⟩
                  · refine chainPairs_append tr1 tr2 (c2 + 1) hch1 hch2 ?_ ?_
                    · intro x hx; exact Nat.lt_succ_of_lt (hbnd1 x hx).2
                    · intro y hy; exact (hbnd2 y hy).1
                  · intro x hx
                    rcases List.mem_append.mp hx with hx1 | hx2
                    · have := hbnd1 x hx1; omega
                    · have := hbnd2 x hx2; omega
          · simp only [hpkg, Bool.false_eq_true, if_false] at h
            cases hrest : smpGo env f (SmpJob.entries pkgPath rest)
                { st with prio := dictInsert (pkgPath ++ e) (Int.ofNat c) st.prio }
                (c + 1) with
            | none => rw [hrest] at h; simp at h
            | some res2 =>
              obtain ⟨st3, c3, tr2⟩ := res2
              rw [hrest] at h
              simp only [Option.some.injEq, Prod.mk.injEq] at h
              obtain ⟨rfl, rfl, rfl⟩ := h
              obtain ⟨hc2, hch2, hbnd2, hld2⟩ := ih _ _ _ _ _ _ hrest
              refine ⟨by omega, ?_, ?_, fun q hq => hld2 q hq⟩
              · refine chainPairs_cons _ tr2 hch2 ?_
                intro x hx; exact (hbnd2 x hx).1
              · intro x hx
                rcases List.mem_cons.mp hx with hx1 | hx2
                · rw [hx1]; constructor
                  · exact le_refl c
                  · omega
                · have := hbnd2 x hx2; omega
        · rw [eq_false_of_ne_true himp] at h
          simp at h
    | members l =>
      cases l with
      | nil =>
        simp only [smpGo, Option.some.injEq, Prod.mk.injEq] at h
        obtain ⟨rfl, rfl, rfl⟩ := h
        exact ⟨le_refl c, List.chain'_nil, by simp, fun q hq => hq⟩
      | cons m rest =>
        simp only [smpGo] at h
        have hstep : ∀ st2 c2 tr1,
            (if (env.modules m).isPkg then
              if env.importable (initPathOfFile env (env.modules m).file) then
                smpGo env f (SmpJob.init (initPathOfFile env (env.modules m).file)) st c
              else smpGo env f (SmpJob.members (env.modules m).members) st c
            else some (st, c, [])) = some (st2, c2, tr1) →
            c ≤ c2 ∧ List.Chain' (fun x y => x.2 < y.2) tr1
              ∧ (∀ x ∈ tr1, c ≤ x.2 ∧ x.2 < c2)
              ∧ (∀ q ∈ st.loaded, q ∈ st2.loaded) := by
          intro st2 c2 tr1 hin
          by_cases hpkg : (env.modules m).isPkg
          · simp only [hpkg, if_true] at hin
            by_cases hini : env.importable (initPathOfFile env (env.modules m).file)
            · simp only [hini, if_true] at hin
              obtain ⟨hc1, hch1, hbnd1, hld1⟩ := ih _ _ _ _ _ _ hin
              exact ⟨hc1, hch1, hbnd1, hld1⟩
            · simp only [hini, Bool.false_eq_true, if_false] at hin
              obtain ⟨hc1, hch1, hbnd1, hld1⟩ := ih _ _ _ _ _ _ hin
              exact ⟨hc1, hch1, hbnd1, hld1⟩
          · simp only [hpkg, Bool.false_eq_true, if_false, Option.some.injEq,
              Prod.mk.injEq] at hin
            obtain ⟨rfl, rfl, rfl⟩ := hin
            exact ⟨le_refl c, List.chain'_nil, by simp, fun q hq => hq⟩
        cases hin : (if (env.modules m).isPkg then
            if env.importable (initPathOfFile env (env.modules m).file) then
              smpGo env f (SmpJob.init (initPathOfFile env (env.modules m).file)) st c
            else smpGo env f (SmpJob.members (env.modules m).members) st c
          else some (st, c, [])) with
        | none => rw [hin] at h; simp at h
        | some res1 =>
          obtain ⟨st2, c2, tr1⟩ := res1
          rw [hin] at h
          dsimp only at h
          cases hrest : smpGo env f (SmpJob.members rest)
              { st2 with prio := dictInsert m (Int.ofNat c2) st2.prio } (c2 + 1) with
          | none => rw [hrest] at h; simp at h
          | some res2 =>
            obtain ⟨st3, c3, tr2⟩ := res2
            rw [hrest] at h
            simp only [Option.some.injEq, Prod.mk.injEq] at h
            obtain ⟨rfl, rfl, rfl⟩ := h
            obtain ⟨hc1, hch1, hbnd1, hld1⟩ := hstep _ _ _ hin
            obtain ⟨hc2, hch2, hbnd2, hld2⟩ := ih _ _ _ _ _ _ hrest
            refine ⟨by omega, ?_, ?_, fun q hq => hld2 q (hld1 q hq)⟩
            · refine chainPairs_append tr1 ((m, c2) :: tr2) (c2) hch1 ?_ ?_ ?_
              · refine chainPairs_cons _ tr2 hch2 ?_
                intro x hx; exact (hbnd2 x hx).1
              · intro x hx
                have := hbnd1 x hx; omega
              · intro y hy
                rcases List.mem_cons.mp hy with hy1 | hy2
                · rw [hy1]
                · have := hbnd2 y hy2; omega
            · intro x hx
              rcases List.mem_append.mp hx with hx1 | hx2
              · have := hbnd1 x hx1; omega
              · rcases List.mem_cons.mp hx2 with hx3 | hx4
                · rw [hx3]; constructor
                  · omega
                  · simp only
                    omega
                · have := hbnd2 x hx4; omega

/-- The plain (non-package) entries of a `priority` list receive their
`ADDON_MODULE_PRIORITY` assignments in exactly the order they appear in the
list: their full paths form a sublist of the assignment trace. -/
theorem smpGo_entries_sublist (env : LoaderEnv) :
    ∀ fuel pkgPath l st c st' c' tr,
      smpGo env fuel (SmpJob.entries pkgPath l) st c = some (st', c', tr) →
      ((l.filter (fun e => !(env.modules (pkgPath ++ e)).isPkg)).map
        (fun e => pkgPath ++ e)).Sublist (tr.map Prod.fst) := by
  intro fuel
  induction fuel with
  | zero =>
    intro pkgPath l st c st' c' tr h
    simp [smpGo] at h
  | succ f ih =>
    intro pkgPath l st c st' c' tr h
    cases l with
    | nil =>
      simp only [smpGo, Option.some.injEq, Prod.mk.injEq] at h
      obtain ⟨rfl, rfl, rfl⟩ := h
      simp
    | cons e rest =>
      simp only [smpGo] at h
      by_cases himp : env.importable (pkgPath ++ e)
      · rw [himp] at h
        simp only [if_true] at h
        by_cases hpkg : (env.modules (pkgPath ++ e)).isPkg
        · simp only [hpkg, if_true] at h
          by_cases hini : env.importable (pkgPath ++ e ++ ".__init__")
          · simp only [hini, if_true] at h
            cases hstep : smpGo env f (SmpJob.init (pkgPath ++ e ++ ".__init__")) st c with
            | none => rw [hstep] at h; simp at h
            | some res1 =>
              obtain ⟨st2, c2, tr1⟩ := res1
              rw [hstep] at h
              dsimp only at h
              cases hrest : smpGo env f (SmpJob.entries pkgPath rest) st2 (c2 + 1) with
              | none => rw [hrest] at h; simp at h
              | some res2 =>
                obtain ⟨st3, c3, tr2⟩ := res2
                rw [hrest] at h
                simp only [Option.some.injEq, Prod.mk.injEq] at h
                obtain ⟨rfl, rfl, rfl⟩ := h
                rw [List.filter_cons]
                simp only [hpkg, Bool.not_true, Bool.false_eq_true, if_false,
                  List.map_append]
                exact (ih pkgPath rest st2 (c2 + 1) _ _ _ hrest).trans
                  (List.sublist_append_right _ _)
          · simp only [hini, Bool.false_eq_true, if_false] at h
            cases hstep : smpGo env f
                (SmpJob.members (env.modules (pkgPath ++ e)).members) st c with
            | none => rw [hstep] at h; simp at h
            | some res1 =>
              obtain ⟨st2, c2, tr1⟩ := res1
              rw [hstep] at h
              dsimp only at h
              cases hrest : smpGo env f (SmpJob.entries pkgPath rest) st2 (c2 + 1) with
              | none => rw [hrest] at h; simp at h
              | some res2 =>
                obtain ⟨st3, c3, tr2⟩ := res2
                rw [hrest] at h
                simp only [Option.some.injEq, Prod.mk.injEq] at h
                obtain ⟨rfl, rfl, rfl⟩ := h
                rw [List.filter_cons]
                simp only [hpkg, Bool.not_true, Bool.false_eq_true, if_false,
                  List.map_append]
                exact (ih pkgPath rest st2 (c2 + 1) _ _ _ hrest).trans
                  (List.sublist_append_right _ _)
        · simp only [hpkg, Bool.false_eq_true, if_false] at h
          cases hrest : smpGo env f (SmpJob.entries pkgPath rest)
              { st with prio := dictInsert (pkgPath ++ e) (Int.ofNat c) st.prio }
              (c + 1) with
          | none => rw [hrest] at h; simp at h
          | some res2 =>
            obtain ⟨st3, c3, tr2⟩ := res2
            rw [hrest] at h
            simp only [Option.some.injEq, Prod.mk.injEq] at h
            obtain ⟨rfl, rfl, rfl⟩ := h
            rw [List.filter_cons]
            simp only [hpkg, Bool.not_false, if_true, List.map_cons]
            exact List.Sublist.cons₂ _ (ih pkgPath rest _ (c + 1) _ _ _ hrest)
      · rw [eq_false_of_ne_true himp] at h
        simp at h

/-- When a package has no `__init__` module and all its member modules are
plain modules, `set_priority` assigns the consecutive priorities
`c, c+1, ...` to exactly the member modules in their registration order. -/
theorem smpGo_members_plain (env : LoaderEnv) :
    ∀ fuel l st c st' c' tr, (∀ m ∈ l, (env.modules m).isPkg = false) →
      smpGo env fuel (SmpJob.members l) st c = some (st', c', tr) →
      tr.map Prod.fst = l ∧ tr.map Prod.snd = List.range' c l.length
      ∧ c' = c + l.length := by
  intro fuel
  induction fuel with
  | zero =>
    intro l st c st' c' tr hplain h
    simp [smpGo] at h
  | succ f ih =>
    intro l st c st' c' tr hplain h
    cases l with
    | nil =>
      simp only [smpGo, Option.some.injEq, Prod.mk.injEq] at h
      obtain ⟨rfl, rfl, rfl⟩ := h
      simp
    | cons m rest =>
      have hm : (env.modules m).isPkg = false := hplain m (List.mem_cons_self _ _)
      simp only [smpGo, hm, Bool.false_eq_true, if_false] at h
      cases hrest : smpGo env f (SmpJob.members rest)
          { st with prio := dictInsert m (Int.ofNat c) st.prio } (c + 1) with
      | none => rw [hrest] at h; simp at h
      | some res2 =>
        obtain ⟨st3, c3, tr2⟩ := res2
        rw [hrest] at h
        simp only [Option.some.injEq, Prod.mk.injEq] at h
        obtain ⟨rfl, rfl, rfl⟩ := h
        obtain ⟨hfst, hsnd, hcnt⟩ := ih rest _ (c + 1) _ _ _
          (fun q hq => hplain q (List.mem_cons_of_mem _ hq)) hrest
        refine ⟨?_, ?_, ?_⟩
        · simp [hfst]
        · simp only [List.nil_append, List.map_cons, hsnd, List.length_cons]
          rw [List.range'_succ]
        · simp only [List.length_cons]
          omega

/-- An `__init__` module already marked `ADDON_INIT_LOADED` is not processed
again: `_set_module_priority` returns at once, changing nothing. -/
theorem smpGo_init_loaded (env : LoaderEnv) (fuel : Nat) (p : String) (st : PrState)
    (c : Nat) (h : initLoadedCheck env st p = true) :
    smpGo env (fuel + 1) (SmpJob.init p) st c = some (st, c, []) := by
  simp [smpGo, h]

/-- A processed `__init__` module carries the `ADDON_INIT_LOADED` mark
afterwards, so a later call is a no-op. -/
theorem smpGo_init_marks (env : LoaderEnv) :
    ∀ fuel p st c st' c' tr, smpGo env fuel (SmpJob.init p) st c = some (st', c', tr) →
      initLoadedCheck env st' p = true := by
  intro fuel p st c st' c' tr h
  cases fuel with
  | zero => simp [smpGo] at h
  | succ f =>
    by_cases hL : initLoadedCheck env st p
    · simp only [smpGo, hL, if_true, Option.some.injEq, Prod.mk.injEq] at h
      obtain ⟨rfl, rfl, rfl⟩ := h
      exact hL
    · simp only [smpGo, hL, Bool.false_eq_true, if_false] at h
      have hmem : ∀ st2 : PrState, (∀ q ∈ ({ st with loaded := p :: st.loaded } : PrState).loaded,
          q ∈ st2.loaded) → initLoadedCheck env st2 p = true := by
        intro st2 hsub
        have : p ∈ st2.loaded := hsub p (List.mem_cons_self _ _)
        unfold initLoadedCheck
        have hcon : st2.loaded.contains p = true := List.elem_iff.mpr this
        rw [hcon, Bool.true_or]
      cases hpa : (env.modules p).priorityAttr with
      | none =>
        rw [hpa] at h
        simp only [Option.some.injEq, Prod.mk.injEq] at h
        obtain ⟨rfl, rfl, rfl⟩ := h
        exact hmem _ (fun q hq => hq)
      | some l =>
        rw [hpa] at h
        cases hpk : (env.modules p).package with
        | none =>
          rw [hpk] at h
          simp only [Option.some.injEq, Prod.mk.injEq] at h
          obtain ⟨rfl, rfl, rfl⟩ := h
          exact hmem _ (fun q hq => hq)
        | some pkg =>
          rw [hpk] at h
          exact hmem _ (smpGo_invariant env _ _ _ _ _ _ _ h).2.2.2

/-- C1: `__set_module_priority` assigns strictly increasing
`ADDON_MODULE_PRIORITY` values — the assignment trace of any run is strictly
increasing and bounded by the initial and final `priority_count` — and the
plain modules listed in a `priority` iterable receive their assignments in
exactly the listed order (their paths form a sublist of the trace; listed
sub-packages are processed by recursion into their `__init__` module, or,
without one, via `set_priority`, which assigns consecutive priorities to the
member modules in registration order); each `__init__` module is processed at
most once (a marked module is a no-op, and processing marks the module);
finally the module list is sorted ascending by `ADDON_MODULE_PRIORITY`, with
every module lacking the attribute (or holding `-1`) placed after all
prioritized modules. -/
theorem c1_module_priority (env : LoaderEnv) :
    (∀ fuel job st c st' c' tr, smpGo env fuel job st c = some (st', c', tr) →
        List.Chain' (fun x y => x.2 < y.2) tr ∧ (∀ x ∈ tr, c ≤ x.2 ∧ x.2 < c'))
    ∧ (∀ fuel pkgPath l st c st' c' tr,
        smpGo env fuel (SmpJob.entries pkgPath l) st c = some (st', c', tr) →
        ((l.filter (fun e => !(env.modules (pkgPath ++ e)).isPkg)).map
          (fun e => pkgPath ++ e)).Sublist (tr.map Prod.fst))
    ∧ (∀ fuel l st c st' c' tr, (∀ m ∈ l, (env.modules m).isPkg = false) →
        smpGo env fuel (SmpJob.members l) st c = some (st', c', tr) →
        tr.map Prod.fst = l ∧ tr.map Prod.snd = List.range' c l.length)
    ∧ (∀ fuel p st c, initLoadedCheck env st p = true →
        smpGo env (fuel + 1) (SmpJob.init p) st c = some (st, c, []))
    ∧ (∀ fuel p st c st' c' tr,
        smpGo env fuel (SmpJob.init p) st c = some (st', c', tr) →
        initLoadedCheck env st' p = true)
    ∧ (∀ st (ams : List AddonModule),
        (newSortedAddonModules env st ams).Perm ams
        ∧ (newSortedAddonModules env st ams).Pairwise
            (fun a b =>
              pkLt (moduleSortKey env st b.module) (moduleSortKey env st a.module) = false)
        ∧ (newSortedAddonModules env st ams).Pairwise
            (fun a b =>
              moduleSortKey env st a.module = none → moduleSortKey env st b.module = none)) := by
  refine ⟨?_, ?_, ?_, ?_, ?_, ?_⟩
  · intro fuel job st c st' c' tr h
    obtain ⟨_, hch, hbnd, _⟩ := smpGo_invariant env fuel job st c st' c' tr h
    exact ⟨hch, hbnd⟩
  · exact fun fuel pkgPath l st c st' c' tr h =>
      smpGo_entries_sublist env fuel pkgPath l st c st' c' tr h
  · intro fuel l st c st' c' tr hplain h
    obtain ⟨h1, h2, _⟩ := smpGo_members_plain env fuel l st c st' c' tr hplain h
    exact ⟨h1, h2⟩
  · exact fun fuel p st c h => smpGo_init_loaded env fuel p st c h
  · exact fun fuel p st c st' c' tr h => smpGo_init_marks env fuel p st c st' c' tr h
  · intro st ams
    refine ⟨stableSort_perm _ ams, ?_, ?_⟩
    · exact stableSort_pairwise
        (fun a b : AddonModule =>
          pkLt (moduleSortKey env st a.module) (moduleSortKey env st b.module))
        (fun a b h => pkLt_asymm _ _ h)
        (fun a b c h1 h2 => pkLt_le_trans _ _ _ h1 h2) ams
    · have hp := stableSort_pairwise
        (fun a b : AddonModule =>
          pkLt (moduleSortKey env st a.module) (moduleSortKey env st b.module))
        (fun a b h => pkLt_asymm _ _ h)
        (fun a b c h1 h2 => pkLt_le_trans _ _ _ h1 h2) ams
      refine hp.imp ?_
      intro a b h ha
      rw [ha] at h
      exact pkLt_eq_false_none _ h

/-- Environment of the C1 witness: an add-on package `A` whose `__init__`
lists the plain modules `b` and `a`, in that order. -/
def envC1 : LoaderEnv :=
  { path := "/r", addonName := "A", isDebugMode := true, managerRootName := "core"
    walk := [("/r/A", ["__init__.py", "a.py", "b.py"])]
    importable := fun _ => true
    modules := fun p =>
      if p = "A.__init__" then
        { file := "/r/A/__init__.py", package := some "A"
          priorityAttr := some ["b", "a"] }
      else if p = "A.a" then { file := "/r/A/a.py", package := some "A" }
      else if p = "A.b" then { file := "/r/A/b.py", package := some "A" }
      else {} }

/-- Attribute state after processing `A.__init__` in `envC1`. -/
def stC1 : PrState :=
  { loaded := ["A.__init__"], prio := [("A.b", 0), ("A.a", 1)] }

theorem c1_module_priority_witness :
    (List.Chain' (fun x y => x.2 < y.2) [("A.b", (0 : Nat)), ("A.a", 1)]
      ∧ (∀ x ∈ [("A.b", (0 : Nat)), ("A.a", 1)], 0 ≤ x.2 ∧ x.2 < 2))
    ∧ smpGo envC1 (8 + 1) (SmpJob.init "A.__init__") stC1 5 = some (stC1, 5, []) :=
  ⟨(c1_module_priority envC1).1 9 (SmpJob.init "A.__init__")
      { loaded := [], prio := [] } 0 stC1 2 [("A.b", 0), ("A.a", 1)] (by decide),
   (c1_module_priority envC1).2.2.2.1 8 "A.__init__" stC1 5 (by decide)⟩

theorem dirPriorityIndexAux_none (r : String) :
    ∀ (l : List String) (i cur : Int), (∀ q ∈ l, pyStartsWith r q = false) →
      dirPriorityIndexAux r l i cur = cur := by
  intro l
  induction l with
  | nil => intro i cur _; rfl
  | cons p rest ih =>
    intro i cur hall
    simp only [dirPriorityIndexAux, hall p (List.mem_cons_self _ _), Bool.false_eq_true,
      if_false]
    exact ih _ _ (fun q hq => hall q (List.mem_cons_of_mem _ hq))

theorem dirPriorityIndexAux_last (r : String) :
    ∀ (l : List String) (k : Nat) (p : String) (i cur : Int),
      l.get? k = some p → pyStartsWith r p = true →
      (∀ j q, l.get? j = some q → pyStartsWith r q = true → j ≤ k) →
      dirPriorityIndexAux r l i cur = i + k := by
  intro l
  induction l with
  | nil => intro k p i cur hk _ _; simp at hk
  | cons p0 rest ih =>
    intro k p i cur hk hs hmax
    cases k with
    | zero =>
      simp only [List.get?] at hk
      obtain rfl : p0 = p := Option.some.inj hk
      have hnone : ∀ q ∈ rest, pyStartsWith r q = false := by
        intro q hq
        cases hqq : pyStartsWith r q with
        | false => rfl
        | true =>
          obtain ⟨j, hj⟩ := List.mem_iff_get?.mp hq
          have := hmax (j + 1) q (by simpa using hj) hqq
          omega
      simp only [dirPriorityIndexAux, hs, if_true]
      rw [dirPriorityIndexAux_none r rest _ _ hnone]
      simp
    | succ k2 =>
      simp only [dirPriorityIndexAux]
      rw [ih k2 p (i + 1) _ (by simpa using hk) hs ?_]
      · push_cast
        ring
      · intro j q hj hq
        have := hmax (j + 1) q (by simpa using hj) hq
        omega

/-- Dictionary entries one walk root contributes: its `*.py` files, keyed by
module path, all carrying the root's directory priority. -/
def rootFilePairs (env : LoaderEnv) (dp : Option (List String)) (rf : String × List String) :
    List (String × Int) :=
  (rf.2.filter (fun f => pyEndsWith f ".py")).map
    (fun f => (rootModulePath env rf.1 ++ "." ++ pySplitextStem f,
      dirPriorityIndexOpt dp (rootModulePath env rf.1)))

/-- Flat characterization of the walk dictionary: the per-root entries, in
walk order, hidden roots skipped. -/
def walkPairs (env : LoaderEnv) (dp : Option (List String)) :
    List (String × List String) → List (String × Int)
  | [] => []
  | rf :: rest =>
    (if pyStartsWith (pyBasename rf.1) "." then [] else rootFilePairs env dp rf)
      ++ walkPairs env dp rest

theorem dictInsert_fresh (k : String) (v : Int) (d : List (String × Int))
    (h : k ∉ d.map Prod.fst) : dictInsert k v d = d ++ [(k, v)] := by
  induction d with
  | nil => rfl
  | cons kv rest ih =>
    obtain ⟨k2, v2⟩ := kv
    simp only [List.map_cons, List.mem_cons, not_or] at h
    have hne : ¬ k2 = k := fun he => h.1 he.symm
    simp only [dictInsert, hne, if_false]
    rw [ih h.2, List.cons_append]

theorem collectWalkFiles_fresh (rootMdl : String) (pr : Int) (files : List String) :
    ∀ d : List (String × Int),
      ((d ++ (files.filter (fun f => pyEndsWith f ".py")).map
        (fun f => (rootMdl ++ "." ++ pySplitextStem f, pr))).map Prod.fst).Nodup →
      collectWalkFiles rootMdl pr files d =
        d ++ (files.filter (fun f => pyEndsWith f ".py")).map
          (fun f => (rootMdl ++ "." ++ pySplitextStem f, pr)) := by
  induction files with
  | nil => intro d _; simp [collectWalkFiles]
  | cons f rest ih =>
    intro d h
    by_cases hpy : pyEndsWith f ".py"
    · simp only [List.filter_cons, hpy, if_true, List.map_cons, List.map_append] at h
      have hkey : (rootMdl ++ "." ++ pySplitextStem f) ∉ d.map Prod.fst := by
        intro hmem
        exact (List.nodup_append.mp h).2.2 hmem (List.mem_cons_self _ _)
      simp only [collectWalkFiles, List.foldl_cons, hpy, if_true]
      rw [show (List.foldl (fun d f =>
          if pyEndsWith f ".py" then
            dictInsert (rootMdl ++ "." ++ pySplitextStem f) pr d else d) : List (String × Int) → List String → List (String × Int))
          (dictInsert (rootMdl ++ "." ++ pySplitextStem f) pr d) rest =
          collectWalkFiles rootMdl pr rest
            (dictInsert (rootMdl ++ "." ++ pySplitextStem f) pr d) from rfl]
      rw [dictInsert_fresh _ _ _ hkey]
      rw [ih (d ++ [(rootMdl ++ "." ++ pySplitextStem f, pr)]) ?_]
      · simp [List.filter_cons, hpy]
      · simp only [List.map_append, List.append_assoc, List.map_cons]
        simpa using h
    · simp only [collectWalkFiles, List.foldl_cons, hpy, Bool.false_eq_true, if_false]
      rw [show (List.foldl (fun d f =>
          if pyEndsWith f ".py" then
            dictInsert (rootMdl ++ "." ++ pySplitextStem f) pr d else d) : List (String × Int) → List String → List (String × Int))
          d rest = collectWalkFiles rootMdl pr rest d from rfl]
      rw [ih d ?_]
      · simp [List.filter_cons, hpy]
      · simpa [List.filter_cons, hpy] using h

theorem newCollectWalk_fold (env : LoaderEnv) (dp : Option (List String))
    (ws : List (String × List String)) :
    ∀ d : List (String × Int),
      ((d ++ walkPairs env dp ws).map Prod.fst).Nodup →
      ws.foldl (fun d rf =>
        if pyStartsWith (pyBasename rf.1) "." then d
        else
          collectWalkFiles (rootModulePath env rf.1)
            (dirPriorityIndexOpt dp (rootModulePath env rf.1)) rf.2 d) d =
      d ++ walkPairs env dp ws := by
  induction ws with
  | nil => intro d _; simp [walkPairs]
  | cons rf rest ih =>
    intro d h
    rw [List.foldl_cons]
    by_cases hhid : pyStartsWith (pyBasename rf.1) "."
    · simp only [hhid, if_true]
      simp only [walkPairs, hhid, if_true, List.nil_append] at h
      simp only [walkPairs, hhid, if_true, List.nil_append]
      exact ih d h
    · simp only [hhid, Bool.false_eq_true, if_false]
      simp only [walkPairs, hhid, Bool.false_eq_true, if_false] at h
      simp only [walkPairs, hhid, Bool.false_eq_true, if_false]
      have hpre : ((d ++ rootFilePairs env dp rf).map Prod.fst).Nodup := by
        refine List.Nodup.sublist ?_ h
        refine List.Sublist.map Prod.fst ?_
        rw [← List.append_assoc]
        exact List.sublist_append_left _ _
      have hstep : collectWalkFiles (rootModulePath env rf.1)
          (dirPriorityIndexOpt dp (rootModulePath env rf.1)) rf.2 d =
          d ++ rootFilePairs env dp rf :=
        collectWalkFiles_fresh _ _ _ d hpre
      rw [hstep]
      rw [ih (d ++ rootFilePairs env dp rf) (by simpa [List.append_assoc] using h)]
      simp [List.append_assoc]

theorem newCollectWalk_eq_pairs (env : LoaderEnv) (dp : Option (List String))
    (h : ((walkPairs env dp env.walk).map Prod.fst).Nodup) :
    newCollectWalk env dp = walkPairs env dp env.walk := by
  unfold newCollectWalk
  have := newCollectWalk_fold env dp env.walk [] (by simpa using h)
  simpa using this

theorem walkPairs_mem (env : LoaderEnv) (dp : Option (List String)) :
    ∀ ws : List (String × List String), ∀ rf ∈ ws, ∀ f ∈ rf.2,
      pyStartsWith (pyBasename rf.1) "." = false → pyEndsWith f ".py" = true →
      (rootModulePath env rf.1 ++ "." ++ pySplitextStem f,
        dirPriorityIndexOpt dp (rootModulePath env rf.1)) ∈ walkPairs env dp ws := by
  intro ws
  induction ws with
  | nil => intro rf h; simp at h
  | cons rf0 rest ih =>
    intro rf hrf f hf hhid hpy
    rcases List.mem_cons.mp hrf with heq | hmem
    · subst heq
      apply List.mem_append_left
      simp only [hhid, Bool.false_eq_true, if_false]
      exact List.mem_map.mpr ⟨f, List.mem_filter.mpr ⟨hf, hpy⟩, rfl⟩
    · exact List.mem_append_right _ (ih rf hmem f hf hhid hpy)

/-- C3: for a non-empty `dir_priorities` list, the directory-priority scan
gives a root that matches exactly the `i`-th entry (and no later one) the
priority index `i`; every `*.py` file under a non-hidden root enters the path
dictionary with its root's priority (provided the collected module paths are
distinct, as they are for a real directory tree); and the import order — the
stable sort of the dictionary by priority with negative priorities mapped to
infinity — is a permutation of the collected entries with ascending priority
indices, every module of a matching directory placed before every module
matching no entry, and all unmatched modules last. -/
theorem c3_dir_priorities (env : LoaderEnv) (dp : List String) :
    (∀ (r : String) (k : Nat) (p : String),
        dp.get? k = some p → pyStartsWith r p = true →
        (∀ j q, dp.get? j = some q → pyStartsWith r q = true → j ≤ k) →
        dirPriorityIndex dp r = Int.ofNat k)
    ∧ (((walkPairs env (some dp) env.walk).map Prod.fst).Nodup →
        newCollectWalk env (some dp) = walkPairs env (some dp) env.walk)
    ∧ (∀ rf ∈ env.walk, ∀ f ∈ rf.2,
        pyStartsWith (pyBasename rf.1) "." = false → pyEndsWith f ".py" = true →
        (rootModulePath env rf.1 ++ "." ++ pySplitextStem f,
          dirPriorityIndexOpt (some dp) (rootModulePath env rf.1)) ∈
            walkPairs env (some dp) env.walk)
    ∧ (∀ d : List (String × Int),
        sortedModulePaths d =
          (stableSort (fun a b => pkLt (walkSortKey a.2) (walkSortKey b.2)) d).map Prod.fst
        ∧ (stableSort (fun a b => pkLt (walkSortKey a.2) (walkSortKey b.2)) d).Perm d
        ∧ (stableSort (fun a b => pkLt (walkSortKey a.2) (walkSortKey b.2)) d).Pairwise
            (fun a b => pkLt (walkSortKey b.2) (walkSortKey a.2) = false)
        ∧ (stableSort (fun a b => pkLt (walkSortKey a.2) (walkSortKey b.2)) d).Pairwise
            (fun a b => walkSortKey a.2 = none → walkSortKey b.2 = none)) := by
  refine ⟨?_, newCollectWalk_eq_pairs env (some dp), walkPairs_mem env (some dp) env.walk, ?_⟩
  · intro r k p hk hs hmax
    unfold dirPriorityIndex
    rw [dirPriorityIndexAux_last r dp k p 0 (-1) hk hs hmax]
    simp
  · intro d
    refine ⟨rfl, stableSort_perm _ d, ?_, ?_⟩
    · exact stableSort_pairwise
        (fun a b : String × Int => pkLt (walkSortKey a.2) (walkSortKey b.2))
        (fun a b h => pkLt_asymm _ _ h)
        (fun a b c h1 h2 => pkLt_le_trans _ _ _ h1 h2) d
    · have hp := stableSort_pairwise
        (fun a b : String × Int => pkLt (walkSortKey a.2) (walkSortKey b.2))
        (fun a b h => pkLt_asymm _ _ h)
        (fun a b c h1 h2 => pkLt_le_trans _ _ _ h1 h2) d
      refine hp.imp ?_
      intro a b h ha
      rw [ha] at h
      exact pkLt_eq_false_none _ h

/-- Environment of the C3 witness: two add-on folders `A.ops` and `A.ui`
listed in `dir_priorities` as `["A.ui", "A.ops"]`, plus an unmatched folder. -/
def envC3 : LoaderEnv :=
  { path := "/r", addonName := "A", isDebugMode := true, managerRootName := "core"
    walk := [("/r/A/ops", ["x.py"]), ("/r/A/ui", ["y.py"]), ("/r/A/misc", ["z.py"])]
    importable := fun _ => true
    modules := fun _ => {} }

theorem c3_dir_priorities_witness :
    dirPriorityIndex ["A.ui", "A.ops"] "A.ops" = Int.ofNat 1
    ∧ newCollectWalk envC3 (some ["A.ui", "A.ops"]) =
        walkPairs envC3 (some ["A.ui", "A.ops"]) envC3.walk
    ∧ ("A.ops.x", dirPriorityIndexOpt (some ["A.ui", "A.ops"]) "A.ops") ∈
        walkPairs envC3 (some ["A.ui", "A.ops"]) envC3.walk := by
  refine ⟨?_, ?_, ?_⟩
  · refine (c3_dir_priorities envC3 ["A.ui", "A.ops"]).1 "A.ops" 1 "A.ops"
      (by decide) (by decide) ?_
    intro j q hj hq
    match j with
    | 0 =>
      exfalso
      simp only [List.get?] at hj
      rw [← Option.some.inj hj] at hq
      exact absurd hq (by decide)
    | 1 => exact le_refl 1
    | j + 2 => simp [List.get?] at hj
  · exact (c3_dir_priorities envC3 ["A.ui", "A.ops"]).2.1 (by decide)
  · have := (c3_dir_priorities envC3 ["A.ui", "A.ops"]).2.2.1
      ("/r/A/ops", ["x.py"]) (by decide) "x.py" (by decide) (by decide) (by decide)
    simpa using this

/-- C3 counterexample: when a root matches several `dir_priorities` entries,
the last matching entry wins — the module path `A.u.x` starts with the 0-th
entry `A`, yet its priority index is 1, not 0. -/
theorem c3_dir_priorities_counterexample :
    pyStartsWith "A.u.x" "A" = true
    ∧ ["A", "A.u"].get? 0 = some "A"
    ∧ dirPriorityIndex ["A", "A.u"] "A.u.x" ≠ Int.ofNat 0 := by
  decide
